import Mathlib

/-! PacketWrapper: cursor and frame builder.

A shallow embedding of `packet_wrapper.cpp`.

* Bytes (`uint8_t`, `char` seen as `unsigned char`) are naturals; the only arithmetic the
  program does on them is bitwise xor, which cannot leave the byte range.
* `unsigned int` fields are naturals, reduced modulo `2^32` where the source adds to them.
* An `int` argument is an `Int`; `toUnsigned` is its conversion to `unsigned int`.
* A pointer is seen through whether it is null; the byte region it points to is passed to,
  and returned from, every operation that dereferences it.
* A by-reference argument that the callee may assign is returned next to the result.
-/

namespace PacketWrapper

/-! ## Machine integers and pointers -/

/-- Number of values of an `unsigned int`. -/
def UINT_RANGE : Nat := 4294967296

/-- Largest value of an `int`. -/
def INT_MAX : Int := 2147483647

/-- Conversion of an `int` to `unsigned int` (`static_cast<unsigned int>` and the implicit
conversion in mixed `unsigned`/`int` arithmetic). -/
def toUnsigned (count : Int) : Nat := (count % (UINT_RANGE : Int)).toNat

/-- A pointer to a byte region, up to whether it is `nullptr`. -/
inductive Ptr where
  | null
  | region
deriving DecidableEq, Repr

/-- The truth value of a pointer in a condition (`if (p)`, `!p`). -/
def Ptr.nonNull : Ptr → Bool
  | Ptr.null => false
  | Ptr.region => true

/-- `sizeof(PacketHeader)`: two `uint8_t` and two `char[10]`, no padding. -/
def sizeofPacketHeader : Nat := 22

/-- Byte offset of `PacketHeader::msgType`. -/
def offsetofMsgType : Nat := 0

/-- Byte offset of `PacketHeader::sequence`. -/
def offsetofSequence : Nat := 1

/-- Byte offset of `PacketHeader::source`. -/
def offsetofSource : Nat := 2

/-- Byte offset of `PacketHeader::dest`. -/
def offsetofDest : Nat := 12

/-- Length of `PacketHeader::source` and of `PacketHeader::dest`. -/
def fieldLen : Nat := 10

/-! ## PacketBuffer -/

/-- The four fields of `class PacketBuffer`. -/
structure PacketBuffer where
  m_roBuffer : Ptr
  m_rwBuffer : Ptr
  m_offset : Nat
  m_size : Nat
deriving DecidableEq, Repr

namespace PacketBuffer

/-- `PacketBuffer::createReadOnly`. -/
def createReadOnly (roBuffer : Ptr) (offset size : Nat) : PacketBuffer :=
  ⟨roBuffer, Ptr.null, offset, size⟩

/-- `PacketBuffer::createReadWrite`. -/
def createReadWrite (rwBuffer : Ptr) (offset size : Nat) : PacketBuffer :=
  ⟨Ptr.null, rwBuffer, offset, size⟩

/-- `PacketBuffer::nullBuffer`. -/
def nullBuffer : PacketBuffer :=
  ⟨Ptr.null, Ptr.null, 0, 0⟩

/-- `PacketBuffer::offset`. -/
def offset (b : PacketBuffer) : Nat := b.m_offset

/-- `PacketBuffer::size`. -/
def size (b : PacketBuffer) : Nat := b.m_size

/-- `PacketBuffer::advance(int count)`: `m_offset + count` wraps as `unsigned int`; in
`m_size > count ? m_size - count : 0` the count is converted to `unsigned int`. -/
def advance (b : PacketBuffer) (count : Int) : PacketBuffer :=
  ⟨b.m_roBuffer, b.m_rwBuffer, (b.m_offset + toUnsigned count) % UINT_RANGE,
    if b.m_size > toUnsigned count then b.m_size - toUnsigned count else 0⟩

/-- `PacketBuffer::writeUInt8`: the region behind `m_rwBuffer` goes in and comes out. An
index outside `mem` is outside the C++ object; there `List.set` leaves `mem` as it is. -/
def writeUInt8 (b : PacketBuffer) (mem : List Nat) (value : Nat) : PacketBuffer × List Nat :=
  let mem1 := if b.m_rwBuffer.nonNull && decide (b.m_offset < b.m_size)
    then mem.set b.m_offset value else mem
  (b.advance 1, mem1)

/-- `PacketBuffer::readUInt8`: `value` is the caller's variable, returned after the call. An
index outside `mem` is outside the C++ object; there the model reads 0. -/
def readUInt8 (b : PacketBuffer) (mem : List Nat) (value : Nat) : PacketBuffer × Nat :=
  let value1 := if b.m_roBuffer.nonNull && decide (b.m_offset < b.m_size)
    then mem.getD b.m_offset 0 else value
  (b.advance 1, value1)

end PacketBuffer

/-! ## ContiguousPacket -/

/-- `std::fill` over `count` cells of `buf` starting at index `first`. -/
def fill (buf : List Nat) (first : Nat) : Nat → Nat → List Nat
  | 0, _ => buf
  | count + 1, v => fill (buf.set first v) (first + 1) count v

/-- `std::copy_n(src, count, buf + dst)`. -/
def copy_n : List Nat → Nat → List Nat → Nat → List Nat
  | x :: xs, count + 1, buf, dst => copy_n xs count (buf.set dst x) (dst + 1)
  | _, _, buf, _ => buf

/-- The fields of `ContiguousPacket`, those inherited from `NetworkPacket` first. -/
structure ContiguousPacket where
  m_source : List Nat
  m_dest : List Nat
  m_sequence : Nat
  m_checksum : Nat
  m_frame : List Nat
  m_msgType : Nat
deriving DecidableEq, Repr

namespace ContiguousPacket

/-- `ContiguousPacket::ContiguousPacket()`. -/
def new : ContiguousPacket :=
  { m_source := [], m_dest := [], m_sequence := 0, m_checksum := 0,
    m_frame := List.replicate sizeofPacketHeader 0, m_msgType := 0 }

/-- `ContiguousPacket::ContiguousPacket(uint8_t msgType)`. -/
def newWithType (msgType : Nat) : ContiguousPacket :=
  { m_source := [], m_dest := [], m_sequence := 0, m_checksum := 0,
    m_frame := List.replicate sizeofPacketHeader 0, m_msgType := msgType }

/-- `ContiguousPacket::setMessageType`. -/
def setMessageType (p : ContiguousPacket) (type : Nat) : ContiguousPacket :=
  { p with m_frame := p.m_frame.set offsetofMsgType type, m_msgType := type }

/-- `ContiguousPacket::setSequenceNumber`. -/
def setSequenceNumber (p : ContiguousPacket) (seq : Nat) : ContiguousPacket :=
  { p with m_frame := p.m_frame.set offsetofSequence seq, m_sequence := seq }

/-- `ContiguousPacket::setSource`. -/
def setSource (p : ContiguousPacket) (src : List Nat) : ContiguousPacket :=
  let frame1 := fill p.m_frame offsetofSource fieldLen 0
  let frame2 := copy_n src (min src.length 10) frame1 offsetofSource
  { p with m_frame := frame2, m_source := src }

/-- `ContiguousPacket::setDest`. -/
def setDest (p : ContiguousPacket) (dst : List Nat) : ContiguousPacket :=
  let frame1 := fill p.m_frame offsetofDest fieldLen 0
  let frame2 := copy_n dst (min dst.length 10) frame1 offsetofDest
  { p with m_frame := frame2, m_dest := dst }

/-- `ContiguousPacket::writePayload`: `mem` is the region behind `buffer.m_roBuffer`; the
range `[m_roBuffer + offset, m_roBuffer + offset + payloadLength)` is appended. Where C++
leaves the call undefined (the range runs past `mem`, or `payloadLength` is negative and
passes the guard, which reverses the range) this total function appends the part of the
range that exists; `writePayloadChecked` below has no result there. -/
def writePayload (p : ContiguousPacket) (buffer : PacketBuffer) (mem : List Nat)
    (payloadLength : Int) : ContiguousPacket × PacketBuffer :=
  if decide (buffer.size < toUnsigned payloadLength) || !buffer.m_roBuffer.nonNull then
    (p, buffer)
  else
    ({ p with m_frame := p.m_frame ++ (mem.drop buffer.offset).take payloadLength.toNat },
      buffer)

/-- `ContiguousPacket::writeUInt8`. -/
def writeUInt8 (p : ContiguousPacket) (value : Nat) : ContiguousPacket :=
  { p with m_frame := p.m_frame ++ [value] }

/-- `ContiguousPacket::readPayload`. -/
def readPayload (p : ContiguousPacket) (buffer : PacketBuffer) :
    Bool × ContiguousPacket × PacketBuffer :=
  (false, p, buffer)

/-- `ContiguousPacket::messageType`. -/
def messageType (p : ContiguousPacket) : Nat := p.m_msgType

/-- `ContiguousPacket::finalize`. -/
def finalize (p : ContiguousPacket) : ContiguousPacket :=
  let bcc := p.m_frame.foldl (fun bcc byte => bcc ^^^ byte) 0
  { p with m_checksum := bcc, m_frame := p.m_frame ++ [bcc] }

/-- `ContiguousPacket::frameData`. -/
def frameData (p : ContiguousPacket) : List Nat := p.m_frame

/-- `ContiguousPacket::frameLength`. -/
def frameLength (p : ContiguousPacket) : Nat := p.m_frame.length

/-- `NetworkPacket::source`. -/
def source (p : ContiguousPacket) : List Nat := p.m_source

/-- `NetworkPacket::dest`. -/
def dest (p : ContiguousPacket) : List Nat := p.m_dest

/-- `NetworkPacket::sequenceNumber`. -/
def sequenceNumber (p : ContiguousPacket) : Nat := p.m_sequence

/-- `NetworkPacket::checksum`. -/
def checksum (p : ContiguousPacket) : Nat := p.m_checksum

/-- `NetworkPacket::setChecksum`. -/
def setChecksum (p : ContiguousPacket) (cs : Nat) : ContiguousPacket :=
  { p with m_checksum := cs }

end ContiguousPacket

/-- The body of `demo()` up to `finalize()`. -/
def demo : ContiguousPacket :=
  let externalPayload : List Nat := [0x12, 0x34, 0x56]
  let externalBuffer := PacketBuffer.createReadOnly Ptr.region 0 externalPayload.length
  ((((((((ContiguousPacket.new.setMessageType 1).setSequenceNumber 42).setSource
    [0x44, 0x65, 0x76, 0x69, 0x63, 0x65, 0x41]).setDest
    [0x44, 0x65, 0x76, 0x69, 0x63, 0x65, 0x42]).writeUInt8 0xAA).writePayload
    externalBuffer externalPayload externalPayload.length).1).writeUInt8 0xFF).finalize

/-! ## Call sequences on a builder -/

namespace NetworkPacket

/-- `NetworkPacket::setSource`, reached through a `NetworkPacket&`. -/
def setSource (p : ContiguousPacket) (src : List Nat) : ContiguousPacket :=
  { p with m_source := src }

/-- `NetworkPacket::setDest`, reached through a `NetworkPacket&`. -/
def setDest (p : ContiguousPacket) (dest : List Nat) : ContiguousPacket :=
  { p with m_dest := dest }

/-- `NetworkPacket::setSequenceNumber`, reached through a `NetworkPacket&`. -/
def setSequenceNumber (p : ContiguousPacket) (seq : Nat) : ContiguousPacket :=
  { p with m_sequence := seq }

end NetworkPacket

/-- One call of a state-changing public member function of a `ContiguousPacket`, with its
arguments; a `PacketBuffer` argument comes with the region it points into. -/
inductive Op where
  | setMessageType (type : Nat)
  | setSequenceNumber (seq : Nat)
  | setSource (src : List Nat)
  | setDest (dst : List Nat)
  | writePayload (buffer : PacketBuffer) (mem : List Nat) (payloadLength : Int)
  | writeUInt8 (value : Nat)
  | readPayload (buffer : PacketBuffer)
  | finalize
  | setChecksum (cs : Nat)
  | baseSetSource (src : List Nat)
  | baseSetDest (dest : List Nat)
  | baseSetSequenceNumber (seq : Nat)
deriving DecidableEq, Repr

/-- The builder after one call. -/
def Op.apply (p : ContiguousPacket) : Op → ContiguousPacket
  | Op.setMessageType type => p.setMessageType type
  | Op.setSequenceNumber seq => p.setSequenceNumber seq
  | Op.setSource src => p.setSource src
  | Op.setDest dst => p.setDest dst
  | Op.writePayload buffer mem payloadLength => (p.writePayload buffer mem payloadLength).1
  | Op.writeUInt8 value => p.writeUInt8 value
  | Op.readPayload buffer => (p.readPayload buffer).2.1
  | Op.finalize => p.finalize
  | Op.setChecksum cs => p.setChecksum cs
  | Op.baseSetSource src => NetworkPacket.setSource p src
  | Op.baseSetDest dest => NetworkPacket.setDest p dest
  | Op.baseSetSequenceNumber seq => NetworkPacket.setSequenceNumber p seq

/-- The builder after a sequence of calls, first call first. -/
def run (p : ContiguousPacket) (ops : List Op) : ContiguousPacket :=
  ops.foldl Op.apply p

/-- A builder state that some sequence of calls produces from one of the two constructors. -/
def Reachable (p : ContiguousPacket) : Prop :=
  ∃ ops : List Op, p = run ContiguousPacket.new ops ∨
    ∃ msgType : Nat, p = run (ContiguousPacket.newWithType msgType) ops

/-! ## The specification's vocabulary -/

/-- XOR-fold of a byte sequence, as the specification words it: the bitwise XOR of every
byte. -/
def xorFold : List Nat → Nat
  | [] => 0
  | x :: xs => x ^^^ xorFold xs

/-- The specification's stored text field: the first `min(|x|, 10)` bytes of `x` followed by
zero bytes up to length 10. -/
def pad10 (x : List Nat) : List Nat :=
  x.take (min x.length 10) ++ List.replicate (10 - min x.length 10) 0

/-- The bytes `region[offset], ..., region[offset + length - 1]`. -/
def regionBytes (region : List Nat) (offset length : Nat) : List Nat :=
  (List.range length).map (fun i => region.getD (offset + i) 0)

/-- The specification's condition for `writePayload` to append: the cursor has a read
capability and its remaining size is at least `length`. -/
def guardPasses (cursor : PacketBuffer) (length : Int) : Prop :=
  cursor.m_roBuffer ≠ Ptr.null ∧ length ≤ (cursor.m_size : Int)

instance (cursor : PacketBuffer) (length : Int) : Decidable (guardPasses cursor length) := by
  unfold guardPasses; infer_instance

/-- A `writePayload` call whose arguments are as C++ needs them: the length is a non-negative
`int`, and when the call appends, the region holds the `offset + length` bytes it reads. -/
def PayloadArgsOk (cursor : PacketBuffer) (region : List Nat) (length : Int) : Prop :=
  0 ≤ length ∧ length ≤ INT_MAX ∧
    (guardPasses cursor length → cursor.m_offset + length.toNat ≤ region.length)

instance (cursor : PacketBuffer) (region : List Nat) (length : Int) :
    Decidable (PayloadArgsOk cursor region length) := by
  unfold PayloadArgsOk; infer_instance

/-- A payload append: a builder `writeUInt8`, or a `writePayload` that appends. -/
def IsAppend : Op → Prop
  | Op.writeUInt8 _ => True
  | Op.writePayload buffer mem payloadLength =>
      guardPasses buffer payloadLength ∧ PayloadArgsOk buffer mem payloadLength
  | _ => False

instance : DecidablePred IsAppend := by
  intro op; cases op <;> unfold IsAppend <;> infer_instance

/-- The bytes one payload append contributes. -/
def appendedBytesOf : Op → List Nat
  | Op.writeUInt8 value => [value]
  | Op.writePayload buffer mem payloadLength =>
      regionBytes mem buffer.m_offset payloadLength.toNat
  | _ => []

/-- The bytes of a sequence of payload appends, concatenated in call order. -/
def appendedBytes (ops : List Op) : List Nat :=
  (ops.map appendedBytesOf).flatten

/-- Number of payload bytes a call appends, as the specification counts them: 1 per
`writeUInt8`, `length` per `writePayload` whose guard passes, 0 otherwise. -/
def payloadCountOf : Op → Nat
  | Op.writeUInt8 _ => 1
  | Op.writePayload buffer _ payloadLength =>
      if guardPasses buffer payloadLength then payloadLength.toNat else 0
  | _ => 0

/-- Number of payload bytes a sequence of calls appends. -/
def payloadCount (ops : List Op) : Nat :=
  (ops.map payloadCountOf).sum

/-- A call other than `finalize` whose `writePayload` arguments are as C++ needs them. -/
def BuildStep : Op → Prop
  | Op.finalize => False
  | Op.writePayload buffer mem payloadLength => PayloadArgsOk buffer mem payloadLength
  | _ => True

instance : DecidablePred BuildStep := by
  intro op; cases op <;> unfold BuildStep <;> infer_instance

/-! ## Fixed-layout records and chained cursor calls -/

/-- What `writeStruct<T>` and `readStruct<T>` use of a type `T`: `sizeof(T)` and the object
representation, the bytes that the assignment through `reinterpret_cast<T*>` copies. -/
structure Layout (T : Type) where
  sizeof : Nat
  toBytes : T → List Nat
  ofBytes : List Nat → T

/-- `struct PacketHeader`; `source` and `dest` are the two `char[10]` arrays. -/
structure PacketHeader where
  msgType : Nat
  sequence : Nat
  source : List Nat
  dest : List Nat
deriving DecidableEq, Repr

/-- The two arrays of a `PacketHeader` have their declared length. -/
def PacketHeader.WellSized (h : PacketHeader) : Prop :=
  h.source.length = fieldLen ∧ h.dest.length = fieldLen

instance (h : PacketHeader) : Decidable h.WellSized := by
  unfold PacketHeader.WellSized; infer_instance

/-- The 22 bytes of a `PacketHeader` in declaration order. -/
def PacketHeader.toBytes (h : PacketHeader) : List Nat :=
  [h.msgType, h.sequence] ++ h.source ++ h.dest

/-- A `PacketHeader` read back from its 22 bytes. -/
def PacketHeader.ofBytes (bytes : List Nat) : PacketHeader :=
  { msgType := bytes.getD offsetofMsgType 0,
    sequence := bytes.getD offsetofSequence 0,
    source := (bytes.drop offsetofSource).take fieldLen,
    dest := (bytes.drop offsetofDest).take fieldLen }

/-- The layout of `PacketHeader`. -/
def PacketHeader.layout : Layout PacketHeader :=
  { sizeof := sizeofPacketHeader, toBytes := PacketHeader.toBytes,
    ofBytes := PacketHeader.ofBytes }

namespace PacketBuffer

/-- `PacketBuffer::writeStruct<T>`. The guard `m_offset + sizeof(T) <= m_size` is computed in
`size_t`, taken to be 64 bits wide, where an `unsigned int` offset plus a `sizeof` does not
wrap; `advance(sizeof(T))` converts the size to `int`. The bytes of `data` are stored one by
one; a store outside `mem` is outside the C++ object and leaves `mem` as it is. -/
def writeStruct {T : Type} (layout : Layout T) (b : PacketBuffer) (mem : List Nat) (data : T) :
    PacketBuffer × List Nat :=
  let mem1 := if b.m_rwBuffer.nonNull && decide (b.m_offset + layout.sizeof ≤ b.m_size)
    then copy_n (layout.toBytes data) layout.sizeof mem b.m_offset else mem
  (b.advance (layout.sizeof : Int), mem1)

/-- `PacketBuffer::readStruct<T>`: `data` is the caller's variable, returned after the
call; the guard is computed as in `writeStruct`. -/
def readStruct {T : Type} (layout : Layout T) (b : PacketBuffer) (mem : List Nat) (data : T) :
    PacketBuffer × T :=
  let data1 := if b.m_roBuffer.nonNull && decide (b.m_offset + layout.sizeof ≤ b.m_size)
    then layout.ofBytes ((mem.drop b.m_offset).take layout.sizeof) else data
  (b.advance (layout.sizeof : Int), data1)

end PacketBuffer

/-- One call in a chain `c.op1(...).op2(...)...` of cursor operations, with its argument;
for a read, the argument is the caller's variable before the call. -/
inductive CursorOp : Type 1 where
  | readUInt8 (value : Nat)
  | writeUInt8 (value : Nat)
  | readStruct {T : Type} (layout : Layout T) (data : T)
  | writeStruct {T : Type} (layout : Layout T) (data : T)

/-- The cursor returned by one call of a chain, and the region after the call. -/
def CursorOp.apply (st : PacketBuffer × List Nat) : CursorOp → PacketBuffer × List Nat
  | CursorOp.readUInt8 value => ((st.1.readUInt8 st.2 value).1, st.2)
  | CursorOp.writeUInt8 value => st.1.writeUInt8 st.2 value
  | CursorOp.readStruct layout data => ((st.1.readStruct layout st.2 data).1, st.2)
  | CursorOp.writeStruct layout data => st.1.writeStruct layout st.2 data

/-- The cursor at the end of a chain of calls, and the region after them. -/
def runCursor (st : PacketBuffer × List Nat) (ops : List CursorOp) : PacketBuffer × List Nat :=
  ops.foldl CursorOp.apply st

/-- The chain `b.writeUInt8(v0).writeUInt8(v1)...`: the last cursor and the region. -/
def writeChain (b : PacketBuffer) (mem : List Nat) : List Nat → PacketBuffer × List Nat
  | [] => (b, mem)
  | v :: vs => writeChain (b.writeUInt8 mem v).1 (b.writeUInt8 mem v).2 vs

/-- The chain `b.readUInt8(x0).readUInt8(x1)...`: the last cursor and the caller's variables
after the calls, given their values before. -/
def readChain (b : PacketBuffer) (mem : List Nat) : List Nat → PacketBuffer × List Nat
  | [] => (b, [])
  | x :: xs =>
      ((readChain (b.readUInt8 mem x).1 mem xs).1,
        (b.readUInt8 mem x).2 :: (readChain (b.readUInt8 mem x).1 mem xs).2)

/-! ## Region accesses with the bounds of the region made explicit

The operations above index the region with `List.set`, `List.getD`, `List.drop`, which are
total. The variants below have no result when a byte outside the region is accessed. -/

/-- `copy_n` into the region, without a result if a store falls outside the region. -/
def copy_n_checked : List Nat → Nat → List Nat → Nat → Option (List Nat)
  | x :: xs, count + 1, buf, dst =>
      if dst < buf.length then copy_n_checked xs count (buf.set dst x) (dst + 1) else none
  | _, _, buf, _ => some buf

/-- The `count` bytes of the region from index `first`, without a result if one of them is
outside the region. -/
def loadRange (mem : List Nat) (first count : Nat) : Option (List Nat) :=
  if count = 0 ∨ first + count ≤ mem.length then some ((mem.drop first).take count) else none

namespace PacketBuffer

/-- `PacketBuffer::writeUInt8` with the store checked against the region. -/
def writeUInt8Checked (b : PacketBuffer) (mem : List Nat) (value : Nat) :
    Option (PacketBuffer × List Nat) :=
  if b.m_rwBuffer.nonNull && decide (b.m_offset < b.m_size) then
    if b.m_offset < mem.length then some (b.advance 1, mem.set b.m_offset value) else none
  else some (b.advance 1, mem)

/-- `PacketBuffer::readUInt8` with the load checked against the region. -/
def readUInt8Checked (b : PacketBuffer) (mem : List Nat) (value : Nat) :
    Option (PacketBuffer × Nat) :=
  if b.m_roBuffer.nonNull && decide (b.m_offset < b.m_size) then
    if b.m_offset < mem.length then some (b.advance 1, mem.getD b.m_offset 0) else none
  else some (b.advance 1, value)

/-- `PacketBuffer::writeStruct<T>` with the stores checked against the region. -/
def writeStructChecked {T : Type} (layout : Layout T) (b : PacketBuffer) (mem : List Nat)
    (data : T) : Option (PacketBuffer × List Nat) :=
  if b.m_rwBuffer.nonNull && decide (b.m_offset + layout.sizeof ≤ b.m_size) then
    (copy_n_checked (layout.toBytes data) layout.sizeof mem b.m_offset).map
      (fun mem1 => (b.advance (layout.sizeof : Int), mem1))
  else some (b.advance (layout.sizeof : Int), mem)

/-- `PacketBuffer::readStruct<T>` with the loads checked against the region. -/
def readStructChecked {T : Type} (layout : Layout T) (b : PacketBuffer) (mem : List Nat)
    (data : T) : Option (PacketBuffer × T) :=
  if b.m_roBuffer.nonNull && decide (b.m_offset + layout.sizeof ≤ b.m_size) then
    (loadRange mem b.m_offset layout.sizeof).map
      (fun bytes => (b.advance (layout.sizeof : Int), layout.ofBytes bytes))
  else some (b.advance (layout.sizeof : Int), data)

end PacketBuffer

/-- `ContiguousPacket::writePayload` with the range handed to `m_frame.insert` checked. Past
the guard, a negative `payloadLength` makes `[m_roBuffer + offset, m_roBuffer + offset +
payloadLength)` a reversed range, for which `insert` is undefined: no result. Otherwise the
`payloadLength` bytes are loaded, without a result if one of them is outside the region. -/
def ContiguousPacket.writePayloadChecked (p : ContiguousPacket) (buffer : PacketBuffer)
    (mem : List Nat) (payloadLength : Int) : Option (ContiguousPacket × PacketBuffer) :=
  if decide (buffer.size < toUnsigned payloadLength) || !buffer.m_roBuffer.nonNull then
    some (p, buffer)
  else if payloadLength < 0 then
    none
  else
    (loadRange mem buffer.offset payloadLength.toNat).map
      (fun bytes => ({ p with m_frame := p.m_frame ++ bytes }, buffer))

/-- One call of a chain with its region accesses checked. -/
def CursorOp.applyChecked (st : PacketBuffer × List Nat) :
    CursorOp → Option (PacketBuffer × List Nat)
  | CursorOp.readUInt8 value => (st.1.readUInt8Checked st.2 value).map (fun r => (r.1, st.2))
  | CursorOp.writeUInt8 value => st.1.writeUInt8Checked st.2 value
  | CursorOp.readStruct layout data =>
      (st.1.readStructChecked layout st.2 data).map (fun r => (r.1, st.2))
  | CursorOp.writeStruct layout data => st.1.writeStructChecked layout st.2 data

/-- A chain of calls with its region accesses checked. -/
def runCursorChecked (st : PacketBuffer × List Nat) :
    List CursorOp → Option (PacketBuffer × List Nat)
  | [] => some st
  | op :: ops => (CursorOp.applyChecked st op).bind (fun st1 => runCursorChecked st1 ops)

/-- The invariant of a cursor over a region of `len` bytes: the remaining size is 0, or
`offset + size` is within the region. -/
def InRegion (b : PacketBuffer) (len : Nat) : Prop :=
  b.m_size = 0 ∨ b.m_offset + b.m_size ≤ len

instance (b : PacketBuffer) (len : Nat) : Decidable (InRegion b len) := by
  unfold InRegion; infer_instance

/-- `ContiguousPacket::finalize` called `n` times in a row. -/
def finalizeTimes (p : ContiguousPacket) : Nat → ContiguousPacket
  | 0 => p
  | n + 1 => (finalizeTimes p n).finalize

/-! ## Sample inputs -/

/-- A header with its two text fields filled. -/
def sampleHeader : PacketHeader :=
  { msgType := 1, sequence := 42,
    source := [0x44, 0x65, 0x76, 0x69, 0x63, 0x65, 0x41, 0, 0, 0],
    dest := [0x44, 0x65, 0x76, 0x69, 0x63, 0x65, 0x42, 0, 0, 0] }

/-- A chain with one call of each kind. -/
def sampleChain : List CursorOp :=
  [CursorOp.writeUInt8 7, CursorOp.readUInt8 0,
   CursorOp.writeStruct PacketHeader.layout sampleHeader,
   CursorOp.readStruct PacketHeader.layout sampleHeader]

/-- The three payload appends of `demo()`. -/
def sampleAppends : List Op :=
  [Op.writeUInt8 0xAA,
   Op.writePayload (PacketBuffer.createReadOnly Ptr.region 0 3) [0x12, 0x34, 0x56] 3,
   Op.writeUInt8 0xFF]

/-- A builder with one payload byte appended. -/
def samplePacket : ContiguousPacket := ContiguousPacket.new.writeUInt8 7

/-- A twelve-byte text, longer than a header text field. -/
def sampleLongText : List Nat := [65, 66, 67, 68, 69, 70, 71, 72, 73, 74, 75, 76]

end PacketWrapper

namespace PacketWrapper

/-! ## Lemmas on the list primitives -/

theorem set_length_append (pre : List Nat) (x v : Nat) (rest : List Nat) :
    (pre ++ x :: rest).set pre.length v = pre ++ v :: rest := by
  induction pre with
  | nil => rfl
  | cons a pre ih => simp [List.set, ih]

theorem fill_append (xs : List Nat) : ∀ (pre rest : List Nat) (v : Nat),
    fill (pre ++ xs ++ rest) pre.length xs.length v
      = pre ++ List.replicate xs.length v ++ rest := by
  induction xs with
  | nil => intro pre rest v; simp [fill]
  | cons x xs ih =>
    intro pre rest v
    have h := ih (pre ++ [v]) rest v
    simp only [List.length_append, List.length_singleton, List.append_assoc,
      List.singleton_append] at h
    simp only [List.length_cons, fill, List.append_assoc, List.cons_append,
      set_length_append, List.replicate_succ]
    exact h

theorem copy_n_append (src : List Nat) : ∀ (xs pre rest : List Nat),
    xs.length ≤ src.length →
    copy_n src xs.length (pre ++ xs ++ rest) pre.length = pre ++ src.take xs.length ++ rest := by
  induction src with
  | nil =>
    intro xs pre rest h
    have : xs = [] := List.length_eq_zero.mp (Nat.le_zero.mp h)
    subst this
    simp [copy_n]
  | cons s src ih =>
    intro xs pre rest h
    cases xs with
    | nil => simp [copy_n]
    | cons x xs =>
      have h1 : xs.length ≤ src.length := by simpa using h
      have h2 := ih xs (pre ++ [s]) rest h1
      simp only [List.length_append, List.length_singleton, List.append_assoc,
        List.singleton_append] at h2
      simp only [List.length_cons, copy_n, List.append_assoc, List.cons_append,
        set_length_append, List.take_succ_cons]
      exact h2

theorem field_write (buf : List Nat) (first : Nat) (src : List Nat)
    (h : first + 10 ≤ buf.length) :
    copy_n src (min src.length 10) (fill buf first 10 0) first
      = buf.take first ++ pad10 src ++ buf.drop (first + 10) := by
  have hpre : (buf.take first).length = first := by
    rw [List.length_take]; omega
  have hmid : ((buf.drop first).take 10).length = 10 := by
    rw [List.length_take, List.length_drop]; omega
  have hbuf : buf = buf.take first ++ (buf.drop first).take 10 ++ buf.drop (first + 10) := by
    rw [List.append_assoc, ← List.drop_drop, List.take_append_drop, List.take_append_drop]
  have hfill : fill buf first 10 0
      = buf.take first ++ List.replicate 10 0 ++ buf.drop (first + 10) := by
    have := fill_append ((buf.drop first).take 10) (buf.take first) (buf.drop (first + 10)) 0
    rw [hpre, hmid, ← hbuf] at this
    exact this
  have hk : min src.length 10 ≤ 10 := Nat.min_le_right _ _
  have hsplit : List.replicate 10 0
      = List.replicate (min src.length 10) 0 ++ List.replicate (10 - min src.length 10) 0 := by
    rw [List.append_replicate_replicate]; congr 1; omega
  have hcopy := copy_n_append src (List.replicate (min src.length 10) 0) (buf.take first)
    (List.replicate (10 - min src.length 10) 0 ++ buf.drop (first + 10))
    (by rw [List.length_replicate]; exact Nat.min_le_left _ _)
  rw [List.length_replicate, hpre] at hcopy
  rw [hfill, hsplit, pad10]
  simp only [List.append_assoc] at hcopy ⊢
  exact hcopy

theorem pad10_length (x : List Nat) : (pad10 x).length = 10 := by
  simp only [pad10, List.length_append, List.length_take, List.length_replicate]
  omega

theorem fill_length (count : Nat) : ∀ (buf : List Nat) (first v : Nat),
    (fill buf first count v).length = buf.length := by
  induction count with
  | zero => intro buf first v; rfl
  | succ n ih => intro buf first v; simp [fill, ih]

theorem copy_n_length (src : List Nat) : ∀ (count : Nat) (buf : List Nat) (dst : Nat),
    (copy_n src count buf dst).length = buf.length := by
  induction src with
  | nil => intro count buf dst; simp [copy_n]
  | cons x xs ih =>
    intro count buf dst
    cases count with
    | zero => simp [copy_n]
    | succ n => simp [copy_n, ih]

/-! ## Lemmas on the checksum -/

theorem foldl_xor (l : List Nat) : ∀ acc : Nat,
    l.foldl (fun bcc byte => bcc ^^^ byte) acc = acc ^^^ xorFold l := by
  induction l with
  | nil => intro acc; simp [xorFold]
  | cons x xs ih => intro acc; simp [xorFold, ih, Nat.xor_assoc]

theorem xorFold_append (l1 l2 : List Nat) :
    xorFold (l1 ++ l2) = xorFold l1 ^^^ xorFold l2 := by
  induction l1 with
  | nil => simp [xorFold]
  | cons x xs ih => simp [xorFold, ih, Nat.xor_assoc]

theorem xorFold_lt (l : List Nat) (h : ∀ x ∈ l, x < 256) : xorFold l < 256 := by
  induction l with
  | nil => simp [xorFold]
  | cons x xs ih =>
    have hx : x < 2 ^ 8 := h x (List.mem_cons_self _ _)
    have hxs : xorFold xs < 2 ^ 8 := ih (fun y hy => h y (List.mem_cons_of_mem _ hy))
    exact Nat.xor_lt_two_pow hx hxs

theorem finalize_frame (p : ContiguousPacket) :
    p.finalize.m_frame = p.m_frame ++ [xorFold p.m_frame] := by
  simp [ContiguousPacket.finalize, foldl_xor]

theorem finalize_checksum (p : ContiguousPacket) :
    p.finalize.m_checksum = xorFold p.m_frame := by
  simp [ContiguousPacket.finalize, foldl_xor]

/-! ## Lemmas on the header setters -/

theorem setSource_length (p : ContiguousPacket) (x : List Nat) :
    (p.setSource x).m_frame.length = p.m_frame.length := by
  simp [ContiguousPacket.setSource, copy_n_length, fill_length]

theorem setDest_length (p : ContiguousPacket) (x : List Nat) :
    (p.setDest x).m_frame.length = p.m_frame.length := by
  simp [ContiguousPacket.setDest, copy_n_length, fill_length]

theorem setSource_frame (p : ContiguousPacket) (x : List Nat) (h : 12 ≤ p.m_frame.length) :
    (p.setSource x).m_frame = p.m_frame.take 2 ++ pad10 x ++ p.m_frame.drop 12 :=
  field_write p.m_frame 2 x h

theorem setDest_frame (p : ContiguousPacket) (x : List Nat) (h : 22 ≤ p.m_frame.length) :
    (p.setDest x).m_frame = p.m_frame.take 12 ++ pad10 x ++ p.m_frame.drop 22 :=
  field_write p.m_frame 12 x h

/-! ## Lemmas on `writePayload` -/

theorem toUnsigned_of_nonneg (n : Int) (h0 : 0 ≤ n) (hmax : n ≤ INT_MAX) :
    toUnsigned n = n.toNat := by
  unfold toUnsigned UINT_RANGE
  unfold INT_MAX at hmax
  rw [Int.emod_eq_of_lt h0 (by norm_num; omega)]

theorem regionBytes_eq (region : List Nat) (offset length : Nat)
    (h : offset + length ≤ region.length) :
    (region.drop offset).take length = regionBytes region offset length := by
  apply List.ext_getElem?
  intro i
  unfold regionBytes
  by_cases hi : i < length
  · rw [List.getElem?_take_of_lt hi, List.getElem?_drop, List.getElem?_map,
      List.getElem?_range hi]
    have : offset + i < region.length := by omega
    simp [List.getElem?_eq_getElem this]
  · have h1 : ((region.drop offset).take length)[i]? = none := by
      apply List.getElem?_eq_none
      rw [List.length_take, List.length_drop]; omega
    have h2 : ((List.range length).map (fun i => region.getD (offset + i) 0))[i]? = none := by
      apply List.getElem?_eq_none
      rw [List.length_map, List.length_range]; omega
    rw [h1, h2]

theorem regionBytes_length (region : List Nat) (offset length : Nat) :
    (regionBytes region offset length).length = length := by
  simp [regionBytes]

theorem writePayload_accept (p : ContiguousPacket) (cursor : PacketBuffer)
    (region : List Nat) (length : Int) (hg : guardPasses cursor length) (h0 : 0 ≤ length)
    (hmax : length ≤ INT_MAX) (hr : cursor.m_offset + length.toNat ≤ region.length) :
    (p.writePayload cursor region length).1
      = { p with m_frame := p.m_frame ++ regionBytes region cursor.m_offset length.toNat } := by
  obtain ⟨hro, hsz⟩ := hg
  have hnn : cursor.m_roBuffer.nonNull = true := by
    cases hc : cursor.m_roBuffer with
    | null => exact absurd hc hro
    | region => rfl
  have hlt : ¬ cursor.m_size < length.toNat := by omega
  simp [ContiguousPacket.writePayload, PacketBuffer.size, PacketBuffer.offset,
    toUnsigned_of_nonneg length h0 hmax, hnn, hlt, regionBytes_eq region _ _ hr]

theorem writePayload_reject (p : ContiguousPacket) (cursor : PacketBuffer)
    (region : List Nat) (length : Int) (hmax : length ≤ INT_MAX)
    (hg : cursor.m_roBuffer = Ptr.null ∨ (cursor.m_size : Int) < length) :
    (p.writePayload cursor region length).1 = p := by
  rcases hg with hro | hsz
  · simp [ContiguousPacket.writePayload, hro, Ptr.nonNull]
  · have h0 : 0 ≤ length := by omega
    have hlt : cursor.m_size < length.toNat := by omega
    simp [ContiguousPacket.writePayload, PacketBuffer.size,
      toUnsigned_of_nonneg length h0 hmax, hlt]

/-! ## Lemmas on call sequences -/

theorem run_cons (p : ContiguousPacket) (op : Op) (ops : List Op) :
    run p (op :: ops) = run (Op.apply p op) ops := rfl

theorem apply_length_le (p : ContiguousPacket) (op : Op) :
    p.m_frame.length ≤ (Op.apply p op).m_frame.length := by
  cases op with
  | setMessageType type => simp [Op.apply, ContiguousPacket.setMessageType]
  | setSequenceNumber seq => simp [Op.apply, ContiguousPacket.setSequenceNumber]
  | setSource src => simp [Op.apply, setSource_length]
  | setDest dst => simp [Op.apply, setDest_length]
  | writePayload buffer mem payloadLength =>
    simp only [Op.apply, ContiguousPacket.writePayload]
    split <;> simp
  | writeUInt8 value => simp [Op.apply, ContiguousPacket.writeUInt8]
  | readPayload buffer => simp [Op.apply, ContiguousPacket.readPayload]
  | finalize => simp [Op.apply, ContiguousPacket.finalize]
  | setChecksum cs => simp [Op.apply, ContiguousPacket.setChecksum]
  | baseSetSource src => simp [Op.apply, NetworkPacket.setSource]
  | baseSetDest dest => simp [Op.apply, NetworkPacket.setDest]
  | baseSetSequenceNumber seq => simp [Op.apply, NetworkPacket.setSequenceNumber]

theorem run_length_le (ops : List Op) : ∀ p : ContiguousPacket,
    p.m_frame.length ≤ (run p ops).m_frame.length := by
  induction ops with
  | nil => intro p; exact Nat.le_refl _
  | cons op ops ih =>
    intro p
    rw [run_cons]
    exact Nat.le_trans (apply_length_le p op) (ih _)

theorem reachable_length (p : ContiguousPacket) (h : Reachable p) :
    22 ≤ p.m_frame.length := by
  obtain ⟨ops, h | ⟨msgType, h⟩⟩ := h
  · rw [h]
    exact Nat.le_trans (by simp [ContiguousPacket.new, sizeofPacketHeader])
      (run_length_le ops _)
  · rw [h]
    exact Nat.le_trans (by simp [ContiguousPacket.newWithType, sizeofPacketHeader])
      (run_length_le ops _)

theorem run_appends (ops : List Op) : ∀ p : ContiguousPacket,
    (∀ op ∈ ops, IsAppend op) → (run p ops).m_frame = p.m_frame ++ appendedBytes ops := by
  induction ops with
  | nil => intro p _; simp [run, appendedBytes]
  | cons op ops ih =>
    intro p h
    have hop : IsAppend op := h op (List.mem_cons_self _ _)
    have hops : ∀ o ∈ ops, IsAppend o := fun o ho => h o (List.mem_cons_of_mem _ ho)
    rw [run_cons, ih _ hops]
    have happ : (Op.apply p op).m_frame = p.m_frame ++ appendedBytesOf op := by
      cases op with
      | writeUInt8 value => rfl
      | writePayload buffer mem payloadLength =>
        obtain ⟨hg, h0, hmax, hr⟩ := hop
        simp only [Op.apply, appendedBytesOf]
        rw [writePayload_accept p buffer mem payloadLength hg h0 hmax (hr hg)]
      | setMessageType type => exact absurd hop (by simp [IsAppend])
      | setSequenceNumber seq => exact absurd hop (by simp [IsAppend])
      | setSource src => exact absurd hop (by simp [IsAppend])
      | setDest dst => exact absurd hop (by simp [IsAppend])
      | readPayload buffer => exact absurd hop (by simp [IsAppend])
      | finalize => exact absurd hop (by simp [IsAppend])
      | setChecksum cs => exact absurd hop (by simp [IsAppend])
      | baseSetSource src => exact absurd hop (by simp [IsAppend])
      | baseSetDest dest => exact absurd hop (by simp [IsAppend])
      | baseSetSequenceNumber seq => exact absurd hop (by simp [IsAppend])
    rw [happ]
    simp [appendedBytes]

theorem header_frame (t s : Nat) (a b : List Nat) :
    ((((ContiguousPacket.new.setMessageType t).setSequenceNumber s).setSource a).setDest
      b).m_frame = [t, s] ++ pad10 a ++ pad10 b := by
  have h0 : ((ContiguousPacket.new.setMessageType t).setSequenceNumber s).m_frame
      = [t, s] ++ List.replicate 20 0 := rfl
  have h1 : (((ContiguousPacket.new.setMessageType t).setSequenceNumber s).setSource
      a).m_frame = [t, s] ++ pad10 a ++ List.replicate 10 0 := by
    rw [setSource_frame _ _ (by rw [h0]; simp), h0]
    rfl
  have hlen : ([t, s] ++ pad10 a).length = 12 := by simp [pad10_length]
  rw [setDest_frame _ _ (by rw [h1]; simp [pad10_length]), h1]
  rw [List.take_left' hlen]
  have hd : List.drop 22 ([t, s] ++ pad10 a ++ List.replicate 10 0) = [] := by
    apply List.drop_eq_nil_of_le
    simp [pad10_length]
  rw [hd, List.append_nil]

theorem apply_length_build (p : ContiguousPacket) (op : Op) (h : BuildStep op) :
    (Op.apply p op).m_frame.length = p.m_frame.length + payloadCountOf op := by
  cases op with
  | setMessageType type => simp [Op.apply, ContiguousPacket.setMessageType, payloadCountOf]
  | setSequenceNumber seq =>
    simp [Op.apply, ContiguousPacket.setSequenceNumber, payloadCountOf]
  | setSource src => simp [Op.apply, setSource_length, payloadCountOf]
  | setDest dst => simp [Op.apply, setDest_length, payloadCountOf]
  | writePayload buffer mem payloadLength =>
    obtain ⟨h0, hmax, hr⟩ := h
    by_cases hg : guardPasses buffer payloadLength
    · simp only [Op.apply, payloadCountOf, if_pos hg]
      rw [writePayload_accept p buffer mem payloadLength hg h0 hmax (hr hg)]
      simp [regionBytes_length]
    · simp only [Op.apply, payloadCountOf, if_neg hg]
      have hrej : buffer.m_roBuffer = Ptr.null ∨ (buffer.m_size : Int) < payloadLength := by
        by_cases hro : buffer.m_roBuffer = Ptr.null
        · exact Or.inl hro
        · right
          by_contra hlt
          exact hg ⟨hro, by omega⟩
      rw [writePayload_reject p buffer mem payloadLength hmax hrej]
      rfl
  | writeUInt8 value => simp [Op.apply, ContiguousPacket.writeUInt8, payloadCountOf]
  | readPayload buffer => simp [Op.apply, ContiguousPacket.readPayload, payloadCountOf]
  | finalize => exact absurd h (by simp [BuildStep])
  | setChecksum cs => simp [Op.apply, ContiguousPacket.setChecksum, payloadCountOf]
  | baseSetSource src => simp [Op.apply, NetworkPacket.setSource, payloadCountOf]
  | baseSetDest dest => simp [Op.apply, NetworkPacket.setDest, payloadCountOf]
  | baseSetSequenceNumber seq =>
    simp [Op.apply, NetworkPacket.setSequenceNumber, payloadCountOf]

theorem run_length_build (ops : List Op) : ∀ p : ContiguousPacket,
    (∀ op ∈ ops, BuildStep op) →
    (run p ops).m_frame.length = p.m_frame.length + payloadCount ops := by
  induction ops with
  | nil => intro p _; simp [run, payloadCount]
  | cons op ops ih =>
    intro p h
    rw [run_cons, ih _ (fun o ho => h o (List.mem_cons_of_mem _ ho)),
      apply_length_build p op (h op (List.mem_cons_self _ _))]
    simp [payloadCount]
    omega

theorem finalize_length (p : ContiguousPacket) :
    p.finalize.m_frame.length = p.m_frame.length + 1 := by
  simp [finalize_frame]

/-! ## Lemmas on the cursor -/

theorem toUnsigned_one : toUnsigned 1 = 1 := by decide

theorem advance_one_size (b : PacketBuffer) : (b.advance 1).m_size = b.m_size - 1 := by
  simp only [PacketBuffer.advance, toUnsigned_one]
  split <;> omega

/-! ## Frame assembly -/

/-- C1: from a default-constructed builder, `setMessageType t`, `setSequenceNumber s`,
`setSource a`, `setDest b`, then any sequence of payload appends whose bytes in call order
are `p`, then one `finalize`, give the frame `[t, s] ++ pad10 a ++ pad10 b ++ p ++ [c]` of
length `23 + |p|`, where `c` is the XOR of the `22 + |p|` bytes before it. -/
theorem frame_layout (t s : Nat) (a b : List Nat) (appends : List Op)
    (happ : ∀ op ∈ appends, IsAppend op) :
    (run ((((ContiguousPacket.new.setMessageType t).setSequenceNumber s).setSource a).setDest b)
        appends).finalize.m_frame
      = [t, s] ++ pad10 a ++ pad10 b ++ appendedBytes appends
          ++ [xorFold ([t, s] ++ pad10 a ++ pad10 b ++ appendedBytes appends)]
    ∧ (run ((((ContiguousPacket.new.setMessageType t).setSequenceNumber s).setSource a).setDest b)
        appends).finalize.frameLength = 23 + (appendedBytes appends).length
    ∧ ([t, s] ++ pad10 a ++ pad10 b ++ appendedBytes appends).length
        = 22 + (appendedBytes appends).length := by
  have hf : (run ((((ContiguousPacket.new.setMessageType t).setSequenceNumber s).setSource
      a).setDest b) appends).finalize.m_frame
      = [t, s] ++ pad10 a ++ pad10 b ++ appendedBytes appends
          ++ [xorFold ([t, s] ++ pad10 a ++ pad10 b ++ appendedBytes appends)] := by
    rw [finalize_frame, run_appends appends _ happ, header_frame]
  refine ⟨hf, ?_, ?_⟩
  · rw [ContiguousPacket.frameLength, hf]
    simp [pad10_length]
    omega
  · simp [pad10_length]
    omega

theorem frame_layout_witness :
    (∀ op ∈ sampleAppends, IsAppend op)
    ∧ (run ((((ContiguousPacket.new.setMessageType 1).setSequenceNumber 42).setSource
          [0x44, 0x65, 0x76, 0x69, 0x63, 0x65, 0x41]).setDest sampleLongText)
        sampleAppends).finalize.m_frame
      = [1, 42] ++ pad10 [0x44, 0x65, 0x76, 0x69, 0x63, 0x65, 0x41] ++ pad10 sampleLongText
          ++ appendedBytes sampleAppends
          ++ [xorFold ([1, 42] ++ pad10 [0x44, 0x65, 0x76, 0x69, 0x63, 0x65, 0x41]
            ++ pad10 sampleLongText ++ appendedBytes sampleAppends)] :=
  ⟨by decide,
    (frame_layout 1 42 [0x44, 0x65, 0x76, 0x69, 0x63, 0x65, 0x41] sampleLongText sampleAppends
      (by decide)).1⟩

/-- C2: the end-to-end scenario of `demo()` produces the documented 28-byte golden frame,
and the accessors return checksum 13, sequence number 42 and message type 1. -/
theorem demo_golden_frame :
    demo.frameData = [0x01, 0x2a, 0x44, 0x65, 0x76, 0x69, 0x63, 0x65, 0x41, 0x00, 0x00, 0x00,
        0x44, 0x65, 0x76, 0x69, 0x63, 0x65, 0x42, 0x00, 0x00, 0x00,
        0xaa, 0x12, 0x34, 0x56, 0xff, 0x0d]
    ∧ demo.frameLength = 28
    ∧ demo.checksum = 13
    ∧ demo.sequenceNumber = 42
    ∧ demo.messageType = 1 := by
  decide

/-- C3: for every builder state with frame bytes `f`, `finalize` produces the frame
`f ++ [c]` with `c` the XOR-fold of `f`, caches `c` as the checksum, and the XOR-fold of the
whole finalized frame is 0. -/
theorem finalize_xor (p : ContiguousPacket) :
    p.finalize.frameData = p.frameData ++ [xorFold p.frameData]
    ∧ p.finalize.checksum = xorFold p.frameData
    ∧ xorFold p.finalize.frameData = 0 := by
  refine ⟨finalize_frame p, finalize_checksum p, ?_⟩
  simp only [ContiguousPacket.frameData]
  rw [finalize_frame, xorFold_append]
  simp [xorFold]

/-- C4: in every reachable builder state and for every text `x`, after `setSource x` frame
bytes 2..11 are the first `min(|x|, 10)` bytes of `x` followed by zeros up to 10 bytes, and
after `setDest x` frame bytes 12..21 are; no byte outside the field changes and the frame
length is unchanged. -/
theorem text_setter_field (p : ContiguousPacket) (hp : Reachable p) (x : List Nat) :
    (((p.setSource x).m_frame.drop 2).take 10 = pad10 x
      ∧ (p.setSource x).m_frame.take 2 = p.m_frame.take 2
      ∧ (p.setSource x).m_frame.drop 12 = p.m_frame.drop 12
      ∧ (p.setSource x).m_frame.length = p.m_frame.length)
    ∧ (((p.setDest x).m_frame.drop 12).take 10 = pad10 x
      ∧ (p.setDest x).m_frame.take 12 = p.m_frame.take 12
      ∧ (p.setDest x).m_frame.drop 22 = p.m_frame.drop 22
      ∧ (p.setDest x).m_frame.length = p.m_frame.length) := by
  have hlen := reachable_length p hp
  have h2 : (p.m_frame.take 2).length = 2 := by rw [List.length_take]; omega
  have h12 : (p.m_frame.take 12).length = 12 := by rw [List.length_take]; omega
  have hs := setSource_frame p x (by omega)
  have hd := setDest_frame p x hlen
  refine ⟨⟨?_, ?_, ?_, setSource_length p x⟩, ⟨?_, ?_, ?_, setDest_length p x⟩⟩
  · rw [hs, List.append_assoc, List.drop_left' h2, List.take_left' (pad10_length x)]
  · rw [hs, List.append_assoc, List.take_left' h2]
  · rw [hs, List.drop_left' (by simp [pad10_length, h2])]
  · rw [hd, List.append_assoc, List.drop_left' h12, List.take_left' (pad10_length x)]
  · rw [hd, List.append_assoc, List.take_left' h12]
  · rw [hd, List.drop_left' (by simp [pad10_length, h12])]

theorem text_setter_field_witness :
    Reachable samplePacket
    ∧ ((samplePacket.setSource sampleLongText).m_frame.drop 2).take 10
        = pad10 sampleLongText
    ∧ (samplePacket.setSource sampleLongText).m_frame.drop 12 = samplePacket.m_frame.drop 12
    ∧ (samplePacket.setDest sampleLongText).m_frame.drop 22 = samplePacket.m_frame.drop 22 :=
  ⟨⟨[Op.writeUInt8 7], Or.inl rfl⟩,
    (text_setter_field samplePacket ⟨[Op.writeUInt8 7], Or.inl rfl⟩ sampleLongText).1.1,
    (text_setter_field samplePacket ⟨[Op.writeUInt8 7], Or.inl rfl⟩ sampleLongText).1.2.2.1,
    (text_setter_field samplePacket ⟨[Op.writeUInt8 7], Or.inl rfl⟩ sampleLongText).2.2.2.1⟩

/-- C5: `writePayload(cursor, length)` appends exactly when its guard passes. If the cursor
has a read capability and `size >= length`, with `length` non-negative and the region holding
`offset + length` bytes, the new frame is the old one followed by
`region[offset], ..., region[offset + length - 1]`. If the cursor has no read capability or
`length` exceeds the cursor's remaining size, the builder is unchanged. The cursor is
unchanged in every case. -/
theorem writePayload_guard (p : ContiguousPacket) (cursor : PacketBuffer) (region : List Nat)
    (length : Int) (hmax : length ≤ INT_MAX) :
    (cursor.m_roBuffer ≠ Ptr.null ∧ length ≤ (cursor.m_size : Int) →
      0 ≤ length → cursor.m_offset + length.toNat ≤ region.length →
      (p.writePayload cursor region length).1
          = { p with m_frame := p.m_frame
                ++ regionBytes region cursor.m_offset length.toNat }
        ∧ (p.writePayload cursor region length).1.m_frame.take p.m_frame.length = p.m_frame)
    ∧ (cursor.m_roBuffer = Ptr.null ∨ (cursor.m_size : Int) < length →
      (p.writePayload cursor region length).1 = p)
    ∧ (p.writePayload cursor region length).2 = cursor := by
  refine ⟨?_, ?_, ?_⟩
  · intro hg h0 hr
    have h := writePayload_accept p cursor region length hg h0 hmax hr
    refine ⟨h, ?_⟩
    rw [h]
    simp
  · intro hg
    exact writePayload_reject p cursor region length hmax hg
  · simp only [ContiguousPacket.writePayload]
    split <;> rfl

theorem writePayload_guard_witness :
    (3 : Int) ≤ INT_MAX
    ∧ (samplePacket.writePayload (PacketBuffer.createReadOnly Ptr.region 1 3)
          [0x12, 0x34, 0x56, 0x78] 3).1
        = { samplePacket with m_frame := samplePacket.m_frame ++ [0x34, 0x56, 0x78] }
    ∧ (samplePacket.writePayload (PacketBuffer.createReadOnly Ptr.region 1 2)
          [0x12, 0x34, 0x56, 0x78] 3).1 = samplePacket :=
  ⟨by decide,
    ((writePayload_guard samplePacket (PacketBuffer.createReadOnly Ptr.region 1 3)
      [0x12, 0x34, 0x56, 0x78] 3 (by decide)).1 (by decide) (by decide) (by decide)).1,
    (writePayload_guard samplePacket (PacketBuffer.createReadOnly Ptr.region 1 2)
      [0x12, 0x34, 0x56, 0x78] 3 (by decide)).2.1 (by decide)⟩

/-! ## Cursor -/

/-- C6: cursor byte round trip. For every region, byte `v`, offset `o` and size `s` with
`o < s` and `o` inside the region, `writeUInt8 v` through the read-write cursor
`(region, o, s)` followed by `readUInt8` through a read-only cursor over the resulting region
with the same `o` and `s` yields `v`, whatever the reader's variable held before; every other
byte of the region, and its length, is unchanged by the write. -/
theorem cursor_round_trip (region : List Nat) (v o s d : Nat) (hos : o < s)
    (hreg : o < region.length) :
    ((PacketBuffer.createReadOnly Ptr.region o s).readUInt8
        ((PacketBuffer.createReadWrite Ptr.region o s).writeUInt8 region v).2 d).2 = v
    ∧ ((PacketBuffer.createReadWrite Ptr.region o s).writeUInt8 region v).2.length
        = region.length
    ∧ ∀ i : Nat, i ≠ o →
        ((PacketBuffer.createReadWrite Ptr.region o s).writeUInt8 region v).2[i]? = region[i]? := by
  have hw : ((PacketBuffer.createReadWrite Ptr.region o s).writeUInt8 region v).2
      = region.set o v := by
    simp [PacketBuffer.writeUInt8, PacketBuffer.createReadWrite, Ptr.nonNull, hos]
  rw [hw]
  refine ⟨?_, List.length_set _ _ _, ?_⟩
  · simp [PacketBuffer.readUInt8, PacketBuffer.createReadOnly, Ptr.nonNull, hos, hreg]
  · intro i hi
    rw [List.getElem?_set_ne (Ne.symm hi)]

theorem cursor_round_trip_witness :
    (1 : Nat) < 3 ∧ 1 < [10, 20, 30].length
    ∧ ((PacketBuffer.createReadOnly Ptr.region 1 3).readUInt8
        ((PacketBuffer.createReadWrite Ptr.region 1 3).writeUInt8 [10, 20, 30] 99).2 0).2 = 99 :=
  ⟨by decide, by decide,
    (cursor_round_trip [10, 20, 30] 99 1 3 0 (by decide) (by decide)).1⟩

/-- C7, as stated, fails: the cursor with offset 7 and remaining size 5 has its offset at or
beyond its remaining size, yet the cursor returned by `writeUInt8` or `readUInt8` has
remaining size 4, not 0. -/
theorem out_of_bounds_size_counterexample :
    (PacketBuffer.createReadWrite Ptr.region 7 5).m_size
        ≤ (PacketBuffer.createReadWrite Ptr.region 7 5).m_offset
    ∧ ¬ (((PacketBuffer.createReadWrite Ptr.region 7 5).writeUInt8
          [0, 0, 0, 0, 0, 0, 0, 0] 9).1.size = 0)
    ∧ ¬ (((PacketBuffer.createReadOnly Ptr.region 7 5).readUInt8
          [0, 0, 0, 0, 0, 0, 0, 0] 9).1.size = 0) := by
  decide

/-- C7, amended: for every cursor whose offset is at or beyond its remaining size `s`, a
`writeUInt8` leaves the region unchanged and a `readUInt8` leaves the caller's value
unchanged, and the returned cursor's remaining size is `max(0, s - 1)`: never negative, and
0 exactly when `s <= 1`. -/
theorem out_of_bounds_noop (b : PacketBuffer) (mem : List Nat) (v d : Nat)
    (h : b.m_size ≤ b.m_offset) :
    (b.writeUInt8 mem v).2 = mem
    ∧ (b.readUInt8 mem d).2 = d
    ∧ ((b.writeUInt8 mem v).1.size : Int) = max 0 ((b.m_size : Int) - 1)
    ∧ ((b.readUInt8 mem d).1.size : Int) = max 0 ((b.m_size : Int) - 1)
    ∧ ((b.writeUInt8 mem v).1.size = 0 ↔ b.m_size ≤ 1)
    ∧ ((b.readUInt8 mem d).1.size = 0 ↔ b.m_size ≤ 1) := by
  have hn : ¬ b.m_offset < b.m_size := by omega
  have hsz := advance_one_size b
  refine ⟨?_, ?_, ?_, ?_, ?_, ?_⟩
  · simp [PacketBuffer.writeUInt8, hn]
  · simp [PacketBuffer.readUInt8, hn]
  · simp only [PacketBuffer.writeUInt8, PacketBuffer.size, hsz]; omega
  · simp only [PacketBuffer.readUInt8, PacketBuffer.size, hsz]; omega
  · simp only [PacketBuffer.writeUInt8, PacketBuffer.size, hsz]; omega
  · simp only [PacketBuffer.readUInt8, PacketBuffer.size, hsz]; omega

theorem out_of_bounds_noop_witness :
    (5 : Nat) ≤ 7
    ∧ ((PacketBuffer.createReadWrite Ptr.region 7 5).writeUInt8
        [0, 0, 0, 0, 0, 0, 0, 0] 9).2 = [0, 0, 0, 0, 0, 0, 0, 0]
    ∧ ((PacketBuffer.createReadOnly Ptr.region 7 5).readUInt8
        [0, 0, 0, 0, 0, 0, 0, 0] 9).2 = 9 :=
  ⟨by decide,
    (out_of_bounds_noop (PacketBuffer.createReadWrite Ptr.region 7 5)
      [0, 0, 0, 0, 0, 0, 0, 0] 9 9 (by decide)).1,
    (out_of_bounds_noop (PacketBuffer.createReadOnly Ptr.region 7 5)
      [0, 0, 0, 0, 0, 0, 0, 0] 9 9 (by decide)).2.1⟩

/-- C8: `advance` is additive. For every cursor and all non-negative `int` counts `a` and
`b`, `advance a` followed by `advance b` is the same cursor (capabilities, offset, remaining
size) as `advance (a + b)`; the remaining size is the saturating
`max(0, max(0, size - a) - b) = max(0, size - (a + b))`. -/
theorem advance_additive (c : PacketBuffer) (a b : Int) (ha : 0 ≤ a) (hb : 0 ≤ b)
    (hamax : a ≤ INT_MAX) (hbmax : b ≤ INT_MAX) :
    (c.advance a).advance b = c.advance (a + b)
    ∧ (((c.advance a).advance b).m_size : Int) = max 0 (max 0 ((c.m_size : Int) - a) - b)
    ∧ ((c.advance (a + b)).m_size : Int) = max 0 ((c.m_size : Int) - (a + b))
    ∧ max 0 (max 0 ((c.m_size : Int) - a) - b) = max 0 ((c.m_size : Int) - (a + b)) := by
  have hua : toUnsigned a = a.toNat := toUnsigned_of_nonneg a ha hamax
  have hub : toUnsigned b = b.toNat := toUnsigned_of_nonneg b hb hbmax
  have huab : toUnsigned (a + b) = a.toNat + b.toNat := by
    unfold toUnsigned UINT_RANGE
    unfold INT_MAX at hamax hbmax
    rw [Int.emod_eq_of_lt (by omega) (by norm_num; omega)]
    omega
  have heq : (c.advance a).advance b = c.advance (a + b) := by
    simp only [PacketBuffer.advance, hua, hub, huab, UINT_RANGE]
    congr 1
    · omega
    · split <;> split <;> split <;> omega
  have hsize : ((c.advance (a + b)).m_size : Int) = max 0 ((c.m_size : Int) - (a + b)) := by
    simp only [PacketBuffer.advance, huab]
    split <;> omega
  refine ⟨heq, ?_, hsize, ?_⟩
  · rw [heq, hsize]; omega
  · omega

theorem advance_additive_witness :
    (0 : Int) ≤ 3 ∧ (0 : Int) ≤ 4 ∧ (3 : Int) ≤ INT_MAX ∧ (4 : Int) ≤ INT_MAX
    ∧ ((PacketBuffer.createReadOnly Ptr.region 2 5).advance 3).advance 4
        = (PacketBuffer.createReadOnly Ptr.region 2 5).advance (3 + 4) :=
  ⟨by decide, by decide, by decide, by decide,
    (advance_additive (PacketBuffer.createReadOnly Ptr.region 2 5) 3 4 (by decide) (by decide)
      (by decide) (by decide)).1⟩

/-! ## Builder invariants -/

/-- C9: frame length invariant. A builder fresh from either constructor has a frame of
exactly 22 zero bytes; after any sequence of calls other than `finalize` the frame length is
22 plus the payload bytes appended so far (1 per `writeUInt8`, `length` per `writePayload`
whose guard passes, 0 for every other call); one `finalize` adds exactly 1. -/
theorem frame_length_invariant (msgType : Nat) (ops : List Op)
    (hops : ∀ op ∈ ops, BuildStep op) :
    ContiguousPacket.new.frameData = List.replicate 22 0
    ∧ (ContiguousPacket.newWithType msgType).frameData = List.replicate 22 0
    ∧ (run ContiguousPacket.new ops).frameLength = 22 + payloadCount ops
    ∧ (run (ContiguousPacket.newWithType msgType) ops).frameLength = 22 + payloadCount ops
    ∧ (run ContiguousPacket.new ops).finalize.frameLength = 22 + payloadCount ops + 1
    ∧ (run (ContiguousPacket.newWithType msgType) ops).finalize.frameLength
        = 22 + payloadCount ops + 1
    ∧ ∀ p : ContiguousPacket, p.finalize.frameLength = p.frameLength + 1 := by
  have h1 := run_length_build ops ContiguousPacket.new hops
  have h2 := run_length_build ops (ContiguousPacket.newWithType msgType) hops
  have n1 : ContiguousPacket.new.m_frame.length = 22 := rfl
  have n2 : (ContiguousPacket.newWithType msgType).m_frame.length = 22 := rfl
  rw [n1] at h1
  rw [n2] at h2
  refine ⟨rfl, rfl, h1, h2, ?_, ?_, ?_⟩
  · rw [ContiguousPacket.frameLength, finalize_length, h1]
  · rw [ContiguousPacket.frameLength, finalize_length, h2]
  · intro p
    exact finalize_length p

theorem frame_length_invariant_witness :
    (∀ op ∈ Op.setSource sampleLongText :: Op.writePayload PacketBuffer.nullBuffer [] 3
        :: sampleAppends, BuildStep op)
    ∧ (run ContiguousPacket.new (Op.setSource sampleLongText
        :: Op.writePayload PacketBuffer.nullBuffer [] 3 :: sampleAppends)).frameLength
        = 22 + payloadCount (Op.setSource sampleLongText
          :: Op.writePayload PacketBuffer.nullBuffer [] 3 :: sampleAppends) :=
  ⟨by decide,
    (frame_length_invariant 0 (Op.setSource sampleLongText
      :: Op.writePayload PacketBuffer.nullBuffer [] 3 :: sampleAppends) (by decide)).2.2.1⟩

/-- C10 fails on the code: after `ContiguousPacket(5)` the `messageType` accessor returns 5
while frame byte 0, the header's `msgType`, is 0, and it is still 0 in the finalized
frame. -/
theorem constructor_type_not_in_header :
    (ContiguousPacket.newWithType 5).messageType = 5
    ∧ (ContiguousPacket.newWithType 5).frameData[0]? = some 0
    ∧ (ContiguousPacket.newWithType 5).finalize.messageType = 5
    ∧ (ContiguousPacket.newWithType 5).finalize.frameData[0]? = some 0
    ∧ Reachable (ContiguousPacket.newWithType 5) :=
  ⟨rfl, rfl, rfl, rfl, [], Or.inr ⟨5, rfl⟩⟩

/-! ## Capabilities along a chain of cursor calls -/

theorem apply_caps (st : PacketBuffer × List Nat) (op : CursorOp) :
    (CursorOp.apply st op).1.m_roBuffer = st.1.m_roBuffer
    ∧ (CursorOp.apply st op).1.m_rwBuffer = st.1.m_rwBuffer := by
  cases op <;> exact ⟨rfl, rfl⟩

theorem runCursor_cons (st : PacketBuffer × List Nat) (op : CursorOp) (ops : List CursorOp) :
    runCursor st (op :: ops) = runCursor (CursorOp.apply st op) ops := rfl

theorem runCursor_caps (ops : List CursorOp) : ∀ st : PacketBuffer × List Nat,
    (runCursor st ops).1.m_roBuffer = st.1.m_roBuffer
    ∧ (runCursor st ops).1.m_rwBuffer = st.1.m_rwBuffer := by
  induction ops with
  | nil => intro st; exact ⟨rfl, rfl⟩
  | cons op ops ih =>
    intro st
    rw [runCursor_cons]
    exact ⟨(ih _).1.trans (apply_caps st op).1, (ih _).2.trans (apply_caps st op).2⟩

theorem writeUInt8_null (b : PacketBuffer) (h : b.m_rwBuffer = Ptr.null) (mem : List Nat)
    (v : Nat) : (b.writeUInt8 mem v).2 = mem := by
  simp [PacketBuffer.writeUInt8, h, Ptr.nonNull]

theorem writeStruct_null {T : Type} (layout : Layout T) (b : PacketBuffer)
    (h : b.m_rwBuffer = Ptr.null) (mem : List Nat) (data : T) :
    (b.writeStruct layout mem data).2 = mem := by
  simp [PacketBuffer.writeStruct, h, Ptr.nonNull]

theorem readUInt8_null (b : PacketBuffer) (h : b.m_roBuffer = Ptr.null) (mem : List Nat)
    (d : Nat) : (b.readUInt8 mem d).2 = d := by
  simp [PacketBuffer.readUInt8, h, Ptr.nonNull]

theorem readStruct_null {T : Type} (layout : Layout T) (b : PacketBuffer)
    (h : b.m_roBuffer = Ptr.null) (mem : List Nat) (data : T) :
    (b.readStruct layout mem data).2 = data := by
  simp [PacketBuffer.readStruct, h, Ptr.nonNull]

theorem runCursor_region_null (ops : List CursorOp) : ∀ st : PacketBuffer × List Nat,
    st.1.m_rwBuffer = Ptr.null → (runCursor st ops).2 = st.2 := by
  induction ops with
  | nil => intro st _; rfl
  | cons op ops ih =>
    intro st h
    rw [runCursor_cons, ih _ ((apply_caps st op).2.trans h)]
    cases op with
    | readUInt8 value => rfl
    | writeUInt8 value => exact writeUInt8_null st.1 h st.2 value
    | readStruct layout data => rfl
    | writeStruct layout data => exact writeStruct_null layout st.1 h st.2 data

/-- C11: capability separation is preserved along every chain of cursor calls. A cursor
derived from `createReadOnly` by any chain of `readUInt8`/`writeUInt8`/`readStruct`/
`writeStruct` calls never changes a region through `writeUInt8` or `writeStruct`, and the
chain itself left the region as it was; a cursor derived from `createReadWrite` never changes
the caller's value through `readUInt8` or `readStruct`; `nullBuffer` has size 0 and a cursor
derived from it neither reads nor writes. -/
theorem capability_separation (roBuffer rwBuffer : Ptr) (offset size : Nat) (mem : List Nat)
    (ops : List CursorOp) :
    ((runCursor (PacketBuffer.createReadOnly roBuffer offset size, mem) ops).2 = mem
      ∧ (∀ (region : List Nat) (v : Nat),
          ((runCursor (PacketBuffer.createReadOnly roBuffer offset size, mem) ops).1.writeUInt8
            region v).2 = region)
      ∧ (∀ (T : Type) (layout : Layout T) (region : List Nat) (data : T),
          ((runCursor (PacketBuffer.createReadOnly roBuffer offset size, mem) ops).1.writeStruct
            layout region data).2 = region))
    ∧ ((∀ (region : List Nat) (d : Nat),
          ((runCursor (PacketBuffer.createReadWrite rwBuffer offset size, mem) ops).1.readUInt8
            region d).2 = d)
      ∧ (∀ (T : Type) (layout : Layout T) (region : List Nat) (data : T),
          ((runCursor (PacketBuffer.createReadWrite rwBuffer offset size, mem) ops).1.readStruct
            layout region data).2 = data))
    ∧ (PacketBuffer.nullBuffer.size = 0
      ∧ (runCursor (PacketBuffer.nullBuffer, mem) ops).2 = mem
      ∧ (∀ (region : List Nat) (v d : Nat),
          ((runCursor (PacketBuffer.nullBuffer, mem) ops).1.writeUInt8 region v).2 = region
          ∧ ((runCursor (PacketBuffer.nullBuffer, mem) ops).1.readUInt8 region d).2 = d)
      ∧ (∀ (T : Type) (layout : Layout T) (region : List Nat) (data : T),
          ((runCursor (PacketBuffer.nullBuffer, mem) ops).1.writeStruct layout region data).2
            = region
          ∧ ((runCursor (PacketBuffer.nullBuffer, mem) ops).1.readStruct layout region data).2
            = data)) := by
  have hro := (runCursor_caps ops (PacketBuffer.createReadOnly roBuffer offset size, mem)).2
  have hrw := (runCursor_caps ops (PacketBuffer.createReadWrite rwBuffer offset size, mem)).1
  have hn := runCursor_caps ops (PacketBuffer.nullBuffer, mem)
  have hro1 : (runCursor (PacketBuffer.createReadOnly roBuffer offset size, mem) ops).1.m_rwBuffer
      = Ptr.null := hro
  have hrw1 : (runCursor (PacketBuffer.createReadWrite rwBuffer offset size, mem) ops).1.m_roBuffer
      = Ptr.null := hrw
  have hn1 : (runCursor (PacketBuffer.nullBuffer, mem) ops).1.m_roBuffer = Ptr.null := hn.1
  have hn2 : (runCursor (PacketBuffer.nullBuffer, mem) ops).1.m_rwBuffer = Ptr.null := hn.2
  refine ⟨⟨?_, ?_, ?_⟩, ⟨?_, ?_⟩, rfl, ?_, ?_, ?_⟩
  · exact runCursor_region_null ops _ rfl
  · intro region v; exact writeUInt8_null _ hro1 region v
  · intro T layout region data; exact writeStruct_null layout _ hro1 region data
  · intro region d; exact readUInt8_null _ hrw1 region d
  · intro T layout region data; exact readStruct_null layout _ hrw1 region data
  · exact runCursor_region_null ops _ rfl
  · intro region v d
    exact ⟨writeUInt8_null _ hn2 region v, readUInt8_null _ hn1 region d⟩
  · intro T layout region data
    exact ⟨writeStruct_null layout _ hn2 region data, readStruct_null layout _ hn1 region data⟩

/-- C12: `readPayload` returns `false` for every cursor argument and every builder state, and
leaves the builder (frame bytes and length, cached message type, sequence, source, dest,
checksum) and the cursor unchanged. -/
theorem readPayload_fails (p : ContiguousPacket) (buffer : PacketBuffer) :
    (p.readPayload buffer).1 = false
    ∧ (p.readPayload buffer).2.1 = p
    ∧ (p.readPayload buffer).2.1.frameData = p.frameData
    ∧ (p.readPayload buffer).2.1.frameLength = p.frameLength
    ∧ (p.readPayload buffer).2.1.messageType = p.messageType
    ∧ (p.readPayload buffer).2.1.sequenceNumber = p.sequenceNumber
    ∧ (p.readPayload buffer).2.1.source = p.source
    ∧ (p.readPayload buffer).2.1.dest = p.dest
    ∧ (p.readPayload buffer).2.1.checksum = p.checksum
    ∧ (p.readPayload buffer).2.2 = buffer :=
  ⟨rfl, rfl, rfl, rfl, rfl, rfl, rfl, rfl, rfl, rfl⟩

/-- C14: for every cursor and every previous value `d` of the caller's variable, `readUInt8`
yields `region[offset]` if the cursor has a read capability and `offset < size`, and `d`
otherwise; a read in a chain leaves the region as it was. -/
theorem readUInt8_result (b : PacketBuffer) (mem : List Nat) (d : Nat) :
    (b.m_roBuffer ≠ Ptr.null ∧ b.m_offset < b.m_size →
      (b.readUInt8 mem d).2 = mem.getD b.m_offset 0
      ∧ (b.m_offset < mem.length → mem[b.m_offset]? = some (b.readUInt8 mem d).2))
    ∧ (b.m_roBuffer = Ptr.null ∨ b.m_size ≤ b.m_offset → (b.readUInt8 mem d).2 = d)
    ∧ (CursorOp.apply (b, mem) (CursorOp.readUInt8 d)).2 = mem := by
  refine ⟨?_, ?_, rfl⟩
  · rintro ⟨hro, hlt⟩
    have hnn : b.m_roBuffer.nonNull = true := by
      cases hc : b.m_roBuffer with
      | null => exact absurd hc hro
      | region => rfl
    have hv : (b.readUInt8 mem d).2 = mem.getD b.m_offset 0 := by
      simp [PacketBuffer.readUInt8, hnn, hlt]
    refine ⟨hv, ?_⟩
    intro hreg
    rw [hv]
    simp [List.getElem?_eq_getElem hreg]
  · rintro (hro | hge)
    · exact readUInt8_null b hro mem d
    · have hn : ¬ b.m_offset < b.m_size := by omega
      simp [PacketBuffer.readUInt8, hn]

/-- C15: in every reachable builder state, also after payload appends or `finalize`,
`setMessageType t` changes only frame byte 0, to `t`, and the cached message type, to `t`;
`setSequenceNumber s` changes only frame byte 1, to `s`, and the cached sequence, to `s`.
Every other frame byte, the frame length and the other cached fields are unchanged. -/
theorem header_byte_setter_footprint (p : ContiguousPacket) (hp : Reachable p) (t s : Nat) :
    ((p.setMessageType t).frameData[0]? = some t
      ∧ (∀ i : Nat, i ≠ 0 → (p.setMessageType t).frameData[i]? = p.frameData[i]?)
      ∧ (p.setMessageType t).frameLength = p.frameLength
      ∧ (p.setMessageType t).messageType = t
      ∧ (p.setMessageType t).sequenceNumber = p.sequenceNumber
      ∧ (p.setMessageType t).source = p.source
      ∧ (p.setMessageType t).dest = p.dest
      ∧ (p.setMessageType t).checksum = p.checksum)
    ∧ ((p.setSequenceNumber s).frameData[1]? = some s
      ∧ (∀ i : Nat, i ≠ 1 → (p.setSequenceNumber s).frameData[i]? = p.frameData[i]?)
      ∧ (p.setSequenceNumber s).frameLength = p.frameLength
      ∧ (p.setSequenceNumber s).sequenceNumber = s
      ∧ (p.setSequenceNumber s).messageType = p.messageType
      ∧ (p.setSequenceNumber s).source = p.source
      ∧ (p.setSequenceNumber s).dest = p.dest
      ∧ (p.setSequenceNumber s).checksum = p.checksum) := by
  have hlen := reachable_length p hp
  refine ⟨⟨?_, ?_, ?_, rfl, rfl, rfl, rfl, rfl⟩, ⟨?_, ?_, ?_, rfl, rfl, rfl, rfl, rfl⟩⟩
  · simp only [ContiguousPacket.frameData, ContiguousPacket.setMessageType, offsetofMsgType]
    rw [List.getElem?_set_self (by omega)]
  · intro i hi
    simp only [ContiguousPacket.frameData, ContiguousPacket.setMessageType, offsetofMsgType]
    rw [List.getElem?_set_ne (Ne.symm hi)]
  · simp [ContiguousPacket.frameLength, ContiguousPacket.setMessageType]
  · simp only [ContiguousPacket.frameData, ContiguousPacket.setSequenceNumber,
      offsetofSequence]
    rw [List.getElem?_set_self (by omega)]
  · intro i hi
    simp only [ContiguousPacket.frameData, ContiguousPacket.setSequenceNumber,
      offsetofSequence]
    rw [List.getElem?_set_ne (Ne.symm hi)]
  · simp [ContiguousPacket.frameLength, ContiguousPacket.setSequenceNumber]

theorem header_byte_setter_footprint_witness :
    Reachable samplePacket.finalize
    ∧ (samplePacket.finalize.setMessageType 9).frameData[0]? = some 9
    ∧ (samplePacket.finalize.setSequenceNumber 8).frameData[1]? = some 8
    ∧ (samplePacket.finalize.setSequenceNumber 8).frameLength = samplePacket.finalize.frameLength :=
  ⟨⟨[Op.writeUInt8 7, Op.finalize], Or.inl rfl⟩,
    (header_byte_setter_footprint samplePacket.finalize
      ⟨[Op.writeUInt8 7, Op.finalize], Or.inl rfl⟩ 9 8).1.1,
    (header_byte_setter_footprint samplePacket.finalize
      ⟨[Op.writeUInt8 7, Op.finalize], Or.inl rfl⟩ 9 8).2.1,
    (header_byte_setter_footprint samplePacket.finalize
      ⟨[Op.writeUInt8 7, Op.finalize], Or.inl rfl⟩ 9 8).2.2.2.1⟩

/-! ## Advancing by one byte -/

theorem nonNull_of_ne {q : Ptr} (h : q ≠ Ptr.null) : q.nonNull = true := by
  cases q with
  | null => exact absurd rfl h
  | region => rfl

theorem advance_one (b : PacketBuffer) :
    b.advance 1 = ⟨b.m_roBuffer, b.m_rwBuffer, (b.m_offset + 1) % UINT_RANGE, b.m_size - 1⟩ := by
  simp only [PacketBuffer.advance, toUnsigned_one]
  congr 1
  split <;> omega

/-- C13, as stated, fails: the cursor at offset 4294967295 is returned by `writeUInt8` and by
`readUInt8` with offset 0, not with offset + 1. -/
theorem cursor_u8_offset_counterexample :
    ¬ (((PacketBuffer.createReadWrite Ptr.region 4294967295 0).writeUInt8 [] 9).1.offset
        = 4294967295 + 1)
    ∧ ¬ (((PacketBuffer.createReadOnly Ptr.region 4294967295 0).readUInt8 [] 9).1.offset
        = 4294967295 + 1)
    ∧ ((PacketBuffer.createReadWrite Ptr.region 4294967295 0).writeUInt8 [] 9).1.offset = 0 := by
  decide

/-- C13, amended: every cursor `writeUInt8` and `readUInt8` returns a cursor advanced by 1
whether or not the access occurred: same capabilities, offset `(offset + 1) mod 2^32` (which
is `offset + 1` unless the offset is 4294967295) and remaining size `max(0, size - 1)`;
`writeUInt8` stores the value at `region[offset]` exactly when a write capability is present
and `offset < size`, and otherwise leaves the region unchanged. -/
theorem cursor_u8_advance (b : PacketBuffer) (mem : List Nat) (v d : Nat) :
    ((b.writeUInt8 mem v).1.m_roBuffer = b.m_roBuffer
      ∧ (b.writeUInt8 mem v).1.m_rwBuffer = b.m_rwBuffer
      ∧ (b.writeUInt8 mem v).1.offset = (b.m_offset + 1) % UINT_RANGE
      ∧ (b.m_offset + 1 < UINT_RANGE → (b.writeUInt8 mem v).1.offset = b.m_offset + 1)
      ∧ ((b.writeUInt8 mem v).1.size : Int) = max 0 ((b.m_size : Int) - 1))
    ∧ ((b.readUInt8 mem d).1.m_roBuffer = b.m_roBuffer
      ∧ (b.readUInt8 mem d).1.m_rwBuffer = b.m_rwBuffer
      ∧ (b.readUInt8 mem d).1.offset = (b.m_offset + 1) % UINT_RANGE
      ∧ (b.m_offset + 1 < UINT_RANGE → (b.readUInt8 mem d).1.offset = b.m_offset + 1)
      ∧ ((b.readUInt8 mem d).1.size : Int) = max 0 ((b.m_size : Int) - 1))
    ∧ (b.m_rwBuffer ≠ Ptr.null ∧ b.m_offset < b.m_size →
        (b.writeUInt8 mem v).2 = mem.set b.m_offset v
        ∧ (b.m_offset < mem.length → (b.writeUInt8 mem v).2[b.m_offset]? = some v)
        ∧ ∀ i : Nat, i ≠ b.m_offset → (b.writeUInt8 mem v).2[i]? = mem[i]?)
    ∧ (b.m_rwBuffer = Ptr.null ∨ b.m_size ≤ b.m_offset → (b.writeUInt8 mem v).2 = mem) := by
  have hw : (b.writeUInt8 mem v).1 = b.advance 1 := rfl
  have hr : (b.readUInt8 mem d).1 = b.advance 1 := rfl
  have hadv := advance_one b
  have hoff : (b.advance 1).offset = (b.m_offset + 1) % UINT_RANGE := by rw [hadv]; rfl
  have hoff1 : b.m_offset + 1 < UINT_RANGE → (b.advance 1).offset = b.m_offset + 1 := by
    intro h; rw [hoff, Nat.mod_eq_of_lt h]
  have hsz : ((b.advance 1).size : Int) = max 0 ((b.m_size : Int) - 1) := by
    rw [hadv]; simp only [PacketBuffer.size]; omega
  refine ⟨⟨rfl, rfl, ?_, ?_, ?_⟩, ⟨rfl, rfl, ?_, ?_, ?_⟩, ?_, ?_⟩
  · rw [hw]; exact hoff
  · rw [hw]; exact hoff1
  · rw [hw]; exact hsz
  · rw [hr]; exact hoff
  · rw [hr]; exact hoff1
  · rw [hr]; exact hsz
  · rintro ⟨hrw, hlt⟩
    have hset : (b.writeUInt8 mem v).2 = mem.set b.m_offset v := by
      simp [PacketBuffer.writeUInt8, nonNull_of_ne hrw, hlt]
    rw [hset]
    refine ⟨rfl, ?_, ?_⟩
    · intro hreg; exact List.getElem?_set_self hreg
    · intro i hi; exact List.getElem?_set_ne (Ne.symm hi)
  · rintro (hrw | hge)
    · exact writeUInt8_null b hrw mem v
    · have hn : ¬ b.m_offset < b.m_size := by omega
      simp [PacketBuffer.writeUInt8, hn]

/-! ## Double finalize -/

theorem xorFold_replicate_zero (n : Nat) : xorFold (List.replicate n 0) = 0 := by
  induction n with
  | zero => rfl
  | succ n ih => simp [List.replicate_succ, xorFold, ih]

theorem finalizeTimes_frame (p : ContiguousPacket) (n : Nat) :
    (finalizeTimes p (n + 1)).m_frame
      = p.m_frame ++ xorFold p.m_frame :: List.replicate n 0 := by
  induction n with
  | zero => simp [finalizeTimes, finalize_frame]
  | succ n ih =>
    have hx : xorFold (p.m_frame ++ xorFold p.m_frame :: List.replicate n 0) = 0 := by
      rw [xorFold_append]
      simp [xorFold, xorFold_replicate_zero]
    show (finalizeTimes p (n + 1)).finalize.m_frame = _
    rw [finalize_frame, ih, hx, List.append_assoc]
    congr 1
    rw [List.cons_append, ← List.replicate_succ', List.replicate_succ]

/-- C19: for every builder state with frame bytes `f`, two `finalize` calls in a row give the
frame `f ++ [c, 0]` with `c` the XOR-fold of `f`, and leave the cached checksum at 0; every
`finalize` after the first, in a row of `finalize` calls, appends the byte 0 and caches 0. -/
theorem double_finalize (p : ContiguousPacket) :
    p.finalize.finalize.frameData = p.frameData ++ [xorFold p.frameData, 0]
    ∧ p.finalize.finalize.checksum = 0
    ∧ (∀ n : Nat, (finalizeTimes p (n + 1)).frameData
        = p.frameData ++ xorFold p.frameData :: List.replicate n 0)
    ∧ (∀ n : Nat, (finalizeTimes p (n + 2)).frameData
        = (finalizeTimes p (n + 1)).frameData ++ [0])
    ∧ (∀ n : Nat, (finalizeTimes p (n + 2)).checksum = 0) := by
  have hfold : ∀ n : Nat, xorFold (finalizeTimes p (n + 1)).m_frame = 0 := by
    intro n
    rw [finalizeTimes_frame, xorFold_append]
    simp [xorFold, xorFold_replicate_zero]
  refine ⟨?_, ?_, ?_, ?_, ?_⟩
  · exact finalizeTimes_frame p 1
  · show (finalizeTimes p 1).finalize.m_checksum = 0
    rw [finalize_checksum]; exact hfold 0
  · intro n; exact finalizeTimes_frame p n
  · intro n
    show (finalizeTimes p (n + 1)).finalize.m_frame = _
    rw [finalize_frame, hfold n]
    rfl
  · intro n
    show (finalizeTimes p (n + 1)).finalize.m_checksum = 0
    rw [finalize_checksum]; exact hfold n

/-! ## Text setters, last write wins -/

theorem field_overwrite (f : List Nat) (first : Nat) (a b : List Nat)
    (h : first + 10 ≤ f.length) :
    (f.take first ++ pad10 a ++ f.drop (first + 10)).take first ++ pad10 b
        ++ (f.take first ++ pad10 a ++ f.drop (first + 10)).drop (first + 10)
      = f.take first ++ pad10 b ++ f.drop (first + 10) := by
  have hpre : (f.take first).length = first := by rw [List.length_take]; omega
  have hmid : (f.take first ++ pad10 a).length = first + 10 := by
    rw [List.length_append, hpre, pad10_length]
  rw [List.drop_left' hmid, List.append_assoc (f.take first), List.take_left' hpre]

/-- C20: in every reachable builder state and for all texts `a` and `b`, `setSource a`
followed by `setSource b` leaves the same builder, frame included, as `setSource b` alone,
also when `b` is shorter than `a`; likewise for `setDest`; each text setter is idempotent. -/
theorem text_setter_last_write_wins (p : ContiguousPacket) (hp : Reachable p)
    (a b : List Nat) :
    ((p.setSource a).setSource b).frameData = (p.setSource b).frameData
    ∧ ((p.setDest a).setDest b).frameData = (p.setDest b).frameData
    ∧ ((p.setSource a).setSource a).frameData = (p.setSource a).frameData
    ∧ ((p.setDest a).setDest a).frameData = (p.setDest a).frameData
    ∧ (p.setSource a).setSource b = p.setSource b
    ∧ (p.setDest a).setDest b = p.setDest b := by
  have hlen := reachable_length p hp
  have hs : ∀ x y : List Nat, ((p.setSource x).setSource y).m_frame = (p.setSource y).m_frame := by
    intro x y
    rw [setSource_frame (p.setSource x) y (by rw [setSource_length]; omega),
      setSource_frame p x (by omega), setSource_frame p y (by omega)]
    exact field_overwrite p.m_frame 2 x y (by omega)
  have hd : ∀ x y : List Nat, ((p.setDest x).setDest y).m_frame = (p.setDest y).m_frame := by
    intro x y
    rw [setDest_frame (p.setDest x) y (by rw [setDest_length]; omega),
      setDest_frame p x hlen, setDest_frame p y hlen]
    exact field_overwrite p.m_frame 12 x y (by omega)
  refine ⟨hs a b, hd a b, hs a a, hd a a, ?_, ?_⟩
  · have h := hs a b
    simp only [ContiguousPacket.setSource] at h ⊢
    rw [h]
  · have h := hd a b
    simp only [ContiguousPacket.setDest] at h ⊢
    rw [h]

theorem text_setter_last_write_wins_witness :
    Reachable samplePacket
    ∧ ((samplePacket.setSource sampleLongText).setSource [65, 66]).frameData
        = (samplePacket.setSource [65, 66]).frameData
    ∧ ((samplePacket.setDest sampleLongText).setDest [65, 66]).frameData
        = (samplePacket.setDest [65, 66]).frameData :=
  ⟨⟨[Op.writeUInt8 7], Or.inl rfl⟩,
    (text_setter_last_write_wins samplePacket ⟨[Op.writeUInt8 7], Or.inl rfl⟩
      sampleLongText [65, 66]).1,
    (text_setter_last_write_wins samplePacket ⟨[Op.writeUInt8 7], Or.inl rfl⟩
      sampleLongText [65, 66]).2.1⟩

/-! ## Fixed-layout header through the cursor -/

theorem toBytes_length (h : PacketHeader) (hws : h.WellSized) : h.toBytes.length = 22 := by
  obtain ⟨h1, h2⟩ := hws
  simp [PacketHeader.toBytes, h1, h2, fieldLen]

theorem ofBytes_toBytes (h : PacketHeader) (hws : h.WellSized) :
    PacketHeader.ofBytes h.toBytes = h := by
  obtain ⟨h1, h2⟩ := hws
  rw [fieldLen] at h1 h2
  have e1 : ([h.msgType, h.sequence] ++ h.source ++ h.dest).drop 2 = h.source ++ h.dest := by
    simp
  have e2 : ([h.msgType, h.sequence] ++ h.source ++ h.dest).drop 12 = h.dest := by
    apply List.drop_left'
    simp [h1]
  have e3 : (h.source ++ h.dest).take 10 = h.source := List.take_left' h1
  have e4 : h.dest.take 10 = h.dest := List.take_of_length_le (by omega)
  cases h with
  | mk m q src dst =>
    simp only [PacketHeader.ofBytes, PacketHeader.toBytes, offsetofMsgType, offsetofSequence,
      offsetofSource, offsetofDest, fieldLen] at e1 e2 e3 e4 ⊢
    rw [e1, e2, e3, e4]
    rfl

theorem toUnsigned_header : toUnsigned ((sizeofPacketHeader : Nat) : Int) = 22 := by decide

theorem advance_header (b : PacketBuffer) :
    b.advance ((sizeofPacketHeader : Nat) : Int)
      = ⟨b.m_roBuffer, b.m_rwBuffer, (b.m_offset + 22) % UINT_RANGE, b.m_size - 22⟩ := by
  simp only [PacketBuffer.advance, toUnsigned_header]
  congr 1
  split <;> omega

theorem writeStruct_header_store (h : PacketHeader) (hws : h.WellSized) (region : List Nat)
    (o s : Nat) (hg : o + 22 ≤ s) (hreg : o + 22 ≤ region.length) :
    ((PacketBuffer.createReadWrite Ptr.region o s).writeStruct PacketHeader.layout region h).2
      = region.take o ++ h.toBytes ++ region.drop (o + 22) := by
  have hpre : (region.take o).length = o := by rw [List.length_take]; omega
  have hmid : ((region.drop o).take 22).length = 22 := by
    rw [List.length_take, List.length_drop]; omega
  have hsplit : region
      = region.take o ++ (region.drop o).take 22 ++ region.drop (o + 22) := by
    rw [List.append_assoc, ← List.drop_drop, List.take_append_drop, List.take_append_drop]
  have hcopy := copy_n_append h.toBytes ((region.drop o).take 22) (region.take o)
    (region.drop (o + 22)) (by rw [hmid, toBytes_length h hws])
  have htake : h.toBytes.take 22 = h.toBytes :=
    List.take_of_length_le (by rw [toBytes_length h hws])
  rw [hmid, hpre, ← hsplit, htake] at hcopy
  simp only [PacketBuffer.writeStruct, PacketBuffer.createReadWrite, PacketHeader.layout,
    sizeofPacketHeader, Ptr.nonNull, hg, decide_True, Bool.and_self, if_true]
  exact hcopy

/-- C16, as stated, fails: from the cursor at offset 4294967295 `writeStruct` and `readStruct`
of a `PacketHeader` return a cursor with offset 21, not offset + 22. -/
theorem header_layout_offset_counterexample :
    ¬ (((PacketBuffer.createReadWrite Ptr.region 4294967295 0).writeStruct PacketHeader.layout
          [] sampleHeader).1.offset = 4294967295 + 22)
    ∧ ¬ (((PacketBuffer.createReadOnly Ptr.region 4294967295 0).readStruct PacketHeader.layout
          [] sampleHeader).1.offset = 4294967295 + 22)
    ∧ ((PacketBuffer.createReadWrite Ptr.region 4294967295 0).writeStruct PacketHeader.layout
          [] sampleHeader).1.offset = 21 := by
  decide

/-- C16, amended: for every `PacketHeader` `h` and every read-write cursor `(region, o, s)`,
`writeStruct h` stores the 22 bytes `[msgType, sequence, source[0..9], dest[0..9]]` at
`region[o..o+21]` exactly when `o + 22 <= s`, leaving every other byte unchanged, and
otherwise leaves the whole region unchanged; a following `readStruct` through a read-only
cursor `(region, o, s)` returns `h` when `o + 22 <= s` and otherwise leaves the caller's value
unchanged; both return a cursor with offset `(o + 22) mod 2^32`, which is `o + 22` when that
is below `2^32`, and remaining size `max(0, s - 22)` in every case. -/
theorem header_fixed_layout (h d : PacketHeader) (hws : h.WellSized) (region : List Nat)
    (o s : Nat) (hreg : o + 22 ≤ s → o + 22 ≤ region.length) :
    (h.toBytes = [h.msgType, h.sequence] ++ h.source ++ h.dest ∧ h.toBytes.length = 22)
    ∧ (o + 22 ≤ s →
        ((PacketBuffer.createReadWrite Ptr.region o s).writeStruct PacketHeader.layout
            region h).2 = region.take o ++ h.toBytes ++ region.drop (o + 22))
    ∧ (¬ o + 22 ≤ s →
        ((PacketBuffer.createReadWrite Ptr.region o s).writeStruct PacketHeader.layout
            region h).2 = region)
    ∧ (o + 22 ≤ s →
        ((PacketBuffer.createReadOnly Ptr.region o s).readStruct PacketHeader.layout
            ((PacketBuffer.createReadWrite Ptr.region o s).writeStruct PacketHeader.layout
              region h).2 d).2 = h)
    ∧ (¬ o + 22 ≤ s → ∀ mem : List Nat,
        ((PacketBuffer.createReadOnly Ptr.region o s).readStruct PacketHeader.layout
            mem d).2 = d)
    ∧ ((PacketBuffer.createReadWrite Ptr.region o s).writeStruct PacketHeader.layout
          region h).1 = ⟨Ptr.null, Ptr.region, (o + 22) % UINT_RANGE, s - 22⟩
    ∧ (∀ mem : List Nat,
        ((PacketBuffer.createReadOnly Ptr.region o s).readStruct PacketHeader.layout
          mem d).1 = ⟨Ptr.region, Ptr.null, (o + 22) % UINT_RANGE, s - 22⟩)
    ∧ (o + 22 < UINT_RANGE → (o + 22) % UINT_RANGE = o + 22)
    ∧ ((s - 22 : Nat) : Int) = max 0 ((s : Int) - 22) := by
  refine ⟨⟨rfl, toBytes_length h hws⟩, ?_, ?_, ?_, ?_, ?_, ?_, ?_, ?_⟩
  · intro hg
    exact writeStruct_header_store h hws region o s hg (hreg hg)
  · intro hg
    simp [PacketBuffer.writeStruct, PacketBuffer.createReadWrite, PacketHeader.layout,
      sizeofPacketHeader, hg]
  · intro hg
    rw [writeStruct_header_store h hws region o s hg (hreg hg)]
    have hpre : (region.take o).length = o := by
      rw [List.length_take]; have := hreg hg; omega
    have hread : ((region.take o ++ h.toBytes ++ region.drop (o + 22)).drop o).take 22
        = h.toBytes := by
      rw [List.append_assoc, List.drop_left' hpre, List.take_left' (toBytes_length h hws)]
    simp only [PacketBuffer.readStruct, PacketBuffer.createReadOnly, PacketHeader.layout,
      sizeofPacketHeader, Ptr.nonNull, hg, decide_True, Bool.and_self, if_true, hread]
    exact ofBytes_toBytes h hws
  · intro hg mem
    simp [PacketBuffer.readStruct, PacketBuffer.createReadOnly, PacketHeader.layout,
      sizeofPacketHeader, hg]
  · exact advance_header (PacketBuffer.createReadWrite Ptr.region o s)
  · intro mem
    exact advance_header (PacketBuffer.createReadOnly Ptr.region o s)
  · intro hlt
    exact Nat.mod_eq_of_lt hlt
  · omega

theorem header_fixed_layout_witness :
    sampleHeader.WellSized
    ∧ ((PacketBuffer.createReadOnly Ptr.region 1 23).readStruct PacketHeader.layout
        ((PacketBuffer.createReadWrite Ptr.region 1 23).writeStruct PacketHeader.layout
          (List.replicate 24 9) sampleHeader).2 (PacketHeader.ofBytes [])).2 = sampleHeader :=
  ⟨by decide,
    (header_fixed_layout sampleHeader (PacketHeader.ofBytes []) (by decide)
      (List.replicate 24 9) 1 23 (by decide)).2.2.2.1 (by decide)⟩

/-! ## Chained one-byte accesses -/

theorem set_getElem (mem : List Nat) (o v i : Nat) :
    (mem.set o v)[i]? = if i = o then (mem[i]?).map (fun _ => v) else mem[i]? := by
  by_cases h : i = o
  · subst h
    rw [if_pos rfl]
    by_cases hl : i < mem.length
    · rw [List.getElem?_set_self hl, List.getElem?_eq_getElem hl]; rfl
    · have h1 : (mem.set i v)[i]? = none :=
        List.getElem?_eq_none (by rw [List.length_set]; omega)
      have h2 : mem[i]? = none := List.getElem?_eq_none (by omega)
      rw [h1, h2]; rfl
  · rw [if_neg h, List.getElem?_set_ne (Ne.symm h)]

theorem writeChain_cons (b : PacketBuffer) (mem : List Nat) (v : Nat) (vs : List Nat) :
    writeChain b mem (v :: vs) = writeChain (b.advance 1) (b.writeUInt8 mem v).2 vs := rfl

theorem writeChain_cursor (vs : List Nat) : ∀ (ro rw : Ptr) (o n : Nat) (mem : List Nat),
    o + vs.length < UINT_RANGE →
    (writeChain ⟨ro, rw, o, n⟩ mem vs).1 = ⟨ro, rw, o + vs.length, n - vs.length⟩ := by
  induction vs with
  | nil => intro ro rw o n mem _; rfl
  | cons v vs ih =>
    intro ro rw o n mem h
    simp only [List.length_cons] at h
    have hmod : (o + 1) % UINT_RANGE = o + 1 :=
      Nat.mod_eq_of_lt (by unfold UINT_RANGE at h ⊢; omega)
    rw [writeChain_cons, advance_one, hmod, ih _ _ _ _ _ (by omega)]
    simp only [List.length_cons]
    congr 1 <;> omega

theorem writeChain_length (vs : List Nat) : ∀ (b : PacketBuffer) (mem : List Nat),
    (writeChain b mem vs).2.length = mem.length := by
  induction vs with
  | nil => intro b mem; rfl
  | cons v vs ih =>
    intro b mem
    rw [writeChain_cons, ih]
    simp only [PacketBuffer.writeUInt8]
    split <;> simp

theorem writeChain_getElem (vs : List Nat) : ∀ (ro : Ptr) (o n : Nat) (mem : List Nat),
    o + vs.length ≤ UINT_RANGE → ∀ i : Nat,
    (writeChain ⟨ro, Ptr.region, o, n⟩ mem vs).2[i]?
      = if o ≤ i ∧ i < o + vs.length ∧ o + 2 * (i - o) < n
        then (mem[i]?).map (fun _ => vs.getD (i - o) 0) else mem[i]? := by
  induction vs with
  | nil =>
    intro ro o n mem _ i
    have hc : ¬ (o ≤ i ∧ i < o + ([] : List Nat).length ∧ o + 2 * (i - o) < n) := by
      simp only [List.length_nil]; omega
    rw [if_neg hc]; rfl
  | cons v vs ih =>
    intro ro o n mem hov i
    simp only [List.length_cons] at hov
    rw [writeChain_cons, advance_one]
    have hmem : ∀ j : Nat, ((⟨ro, Ptr.region, o, n⟩ : PacketBuffer).writeUInt8 mem v).2[j]?
        = if o < n ∧ j = o then (mem[j]?).map (fun _ => v) else mem[j]? := by
      intro j
      by_cases hlt : o < n
      · simp only [PacketBuffer.writeUInt8, Ptr.nonNull, hlt, decide_True, Bool.and_self,
          if_true, true_and]
        exact set_getElem mem o v j
      · simp [PacketBuffer.writeUInt8, hlt]
    have hrest : (writeChain ⟨ro, Ptr.region, (o + 1) % UINT_RANGE, n - 1⟩
          ((⟨ro, Ptr.region, o, n⟩ : PacketBuffer).writeUInt8 mem v).2 vs).2[i]?
        = if o + 1 ≤ i ∧ i < o + 1 + vs.length ∧ o + 1 + 2 * (i - (o + 1)) < n - 1
          then (((⟨ro, Ptr.region, o, n⟩ : PacketBuffer).writeUInt8 mem v).2[i]?).map
            (fun _ => vs.getD (i - (o + 1)) 0)
          else ((⟨ro, Ptr.region, o, n⟩ : PacketBuffer).writeUInt8 mem v).2[i]? := by
      cases vs with
      | nil =>
        have hc : ¬ (o + 1 ≤ i ∧ i < o + 1 + ([] : List Nat).length
            ∧ o + 1 + 2 * (i - (o + 1)) < n - 1) := by
          simp only [List.length_nil]; omega
        rw [if_neg hc]; rfl
      | cons w ws =>
        simp only [List.length_cons] at hov
        have hmod : (o + 1) % UINT_RANGE = o + 1 :=
          Nat.mod_eq_of_lt (by unfold UINT_RANGE at hov ⊢; omega)
        rw [hmod]
        exact ih ro (o + 1) (n - 1) _ (by simp only [List.length_cons]; omega) i
    rw [hrest, hmem]
    simp only [List.length_cons]
    rcases Nat.lt_trichotomy i o with hlt | heq | hgt
    · rw [if_neg (by omega), if_neg (by omega), if_neg (by omega)]
    · subst heq
      rw [if_neg (by omega)]
      by_cases hn : i < n
      · rw [if_pos ⟨hn, rfl⟩, if_pos ⟨Nat.le_refl _, by omega, by omega⟩]
        simp
      · rw [if_neg (by omega), if_neg (by omega)]
    · have hidx : i - o = (i - (o + 1)) + 1 := by omega
      rw [if_neg (by omega : ¬ (o < n ∧ i = o))]
      by_cases hc : o + 1 ≤ i ∧ i < o + 1 + vs.length ∧ o + 1 + 2 * (i - (o + 1)) < n - 1
      · rw [if_pos hc, if_pos ⟨by omega, by omega, by omega⟩, hidx, List.getD_cons_succ]
      · rw [if_neg hc, if_neg (by omega)]

theorem readChain_cons (b : PacketBuffer) (mem : List Nat) (x : Nat) (xs : List Nat) :
    readChain b mem (x :: xs)
      = ((readChain (b.advance 1) mem xs).1,
          (b.readUInt8 mem x).2 :: (readChain (b.advance 1) mem xs).2) := rfl

theorem readChain_getElem (xs : List Nat) : ∀ (rw : Ptr) (o n : Nat) (mem : List Nat),
    o + xs.length ≤ UINT_RANGE → ∀ k : Nat,
    (readChain ⟨Ptr.region, rw, o, n⟩ mem xs).2[k]?
      = (xs[k]?).map (fun x => if o + 2 * k < n then mem.getD (o + k) 0 else x) := by
  induction xs with
  | nil => intro rw o n mem _ k; rfl
  | cons x xs ih =>
    intro rw o n mem hov k
    simp only [List.length_cons] at hov
    rw [readChain_cons, advance_one]
    cases k with
    | zero =>
      by_cases hlt : o < n
      · simp [PacketBuffer.readUInt8, Ptr.nonNull, hlt]
      · simp [PacketBuffer.readUInt8, Ptr.nonNull, hlt]
    | succ k =>
      rw [List.getElem?_cons_succ, List.getElem?_cons_succ]
      cases xs with
      | nil => rfl
      | cons y ys =>
        simp only [List.length_cons] at hov
        have hmod : (o + 1) % UINT_RANGE = o + 1 :=
          Nat.mod_eq_of_lt (by unfold UINT_RANGE at hov ⊢; omega)
        rw [hmod, ih rw (o + 1) (n - 1) mem (by simp only [List.length_cons]; omega) k]
        have hidx : o + 1 + k = o + (k + 1) := by omega
        cases (y :: ys)[k]? with
        | none => rfl
        | some z =>
          simp only [Option.map_some', hidx]
          by_cases hc : o + 1 + 2 * k < n - 1
          · rw [if_pos hc, if_pos (by omega)]
          · rw [if_neg hc, if_neg (by omega)]

theorem readChain_length (xs : List Nat) : ∀ (b : PacketBuffer) (mem : List Nat),
    (readChain b mem xs).2.length = xs.length := by
  induction xs with
  | nil => intro b mem; rfl
  | cons x xs ih => intro b mem; rw [readChain_cons]; simp [ih]

/-- C17: chained one-byte accesses stop at the midpoint. For a cursor created with offset `o`
and size `n` over a region holding `n` bytes, with no 32-bit overflow of the offsets, the
`k`-th call (`k = 0, 1, ...`) of a chain `c.writeUInt8(v0).writeUInt8(v1)...` runs on the
cursor `(o + k, n - k)` and stores its byte, at region index `o + k`, if and only if
`o + 2k < n`; a chain of `n` writes from offset 0 over an `n`-byte region stores the first
`ceil(n/2)` values and leaves the indices from `ceil(n/2)` on unchanged. The `k`-th call of a
chain of `readUInt8` calls reads `region[o + k]` if and only if `o + 2k < n`. -/
theorem chain_stops_at_midpoint (mem : List Nat) (o n : Nat) (vs xs : List Nat)
    (hvs : o + vs.length ≤ UINT_RANGE) (hxs : o + xs.length ≤ UINT_RANGE)
    (hreg : n ≤ mem.length) :
    (∀ k : Nat, k < vs.length →
        (writeChain (PacketBuffer.createReadWrite Ptr.region o n) mem (vs.take k)).1
          = ⟨Ptr.null, Ptr.region, o + k, n - k⟩
        ∧ (o + k < n - k ↔ o + 2 * k < n)
        ∧ (o + 2 * k < n →
            (writeChain (PacketBuffer.createReadWrite Ptr.region o n) mem vs).2[o + k]?
              = vs[k]?)
        ∧ (¬ o + 2 * k < n →
            (writeChain (PacketBuffer.createReadWrite Ptr.region o n) mem vs).2[o + k]?
              = mem[o + k]?))
    ∧ (∀ i : Nat, i < o ∨ o + vs.length ≤ i →
        (writeChain (PacketBuffer.createReadWrite Ptr.region o n) mem vs).2[i]? = mem[i]?)
    ∧ (writeChain (PacketBuffer.createReadWrite Ptr.region o n) mem vs).2.length = mem.length
    ∧ (∀ k : Nat, k < xs.length →
        (o + 2 * k < n →
          (readChain (PacketBuffer.createReadOnly Ptr.region o n) mem xs).2[k]? = mem[o + k]?)
        ∧ (¬ o + 2 * k < n →
          (readChain (PacketBuffer.createReadOnly Ptr.region o n) mem xs).2[k]? = xs[k]?))
    ∧ (readChain (PacketBuffer.createReadOnly Ptr.region o n) mem xs).2.length = xs.length
    ∧ (o = 0 → vs.length = n → mem.length = n →
        (writeChain (PacketBuffer.createReadWrite Ptr.region o n) mem vs).2
          = vs.take ((n + 1) / 2) ++ mem.drop ((n + 1) / 2)) := by
  have hw := writeChain_getElem vs Ptr.null o n mem hvs
  have hr := readChain_getElem xs Ptr.null o n mem hxs
  refine ⟨?_, ?_, writeChain_length vs _ mem, ?_, readChain_length xs _ mem, ?_⟩
  · intro k hk
    have hlen : (vs.take k).length = k := by rw [List.length_take]; omega
    refine ⟨?_, by omega, ?_, ?_⟩
    · have hc := writeChain_cursor (vs.take k) Ptr.null Ptr.region o n mem
        (by rw [hlen]; omega)
      rw [hlen] at hc
      exact hc
    · intro hlt
      have hi : o + k < mem.length := by omega
      show (writeChain ⟨Ptr.null, Ptr.region, o, n⟩ mem vs).2[o + k]? = vs[k]?
      rw [hw (o + k), if_pos ⟨by omega, by omega, by rw [Nat.add_sub_cancel_left]; omega⟩,
        Nat.add_sub_cancel_left, List.getElem?_eq_getElem hi, List.getElem?_eq_getElem hk]
      simp [List.getD_eq_getElem?_getD, List.getElem?_eq_getElem hk]
    · intro hge
      show (writeChain ⟨Ptr.null, Ptr.region, o, n⟩ mem vs).2[o + k]? = mem[o + k]?
      rw [hw (o + k), if_neg (by rw [Nat.add_sub_cancel_left]; omega)]
  · intro i hi
    show (writeChain ⟨Ptr.null, Ptr.region, o, n⟩ mem vs).2[i]? = mem[i]?
    rw [hw i, if_neg (by omega)]
  · intro k hk
    refine ⟨?_, ?_⟩
    · intro hlt
      have hi : o + k < mem.length := by omega
      show (readChain ⟨Ptr.region, Ptr.null, o, n⟩ mem xs).2[k]? = mem[o + k]?
      rw [hr k, List.getElem?_eq_getElem hk, List.getElem?_eq_getElem hi]
      simp [hlt, List.getElem?_eq_getElem hi]
    · intro hge
      show (readChain ⟨Ptr.region, Ptr.null, o, n⟩ mem xs).2[k]? = xs[k]?
      rw [hr k, List.getElem?_eq_getElem hk]
      simp [hge]
  · intro ho hlen hmem
    subst ho
    apply List.ext_getElem?
    intro i
    show (writeChain ⟨Ptr.null, Ptr.region, 0, n⟩ mem vs).2[i]? = _
    have htake : (vs.take ((n + 1) / 2)).length = (n + 1) / 2 := by
      rw [List.length_take]; omega
    rw [hw i]
    by_cases hi : i < (n + 1) / 2
    · have hiv : i < vs.length := by omega
      have him : i < mem.length := by omega
      rw [if_pos ⟨by omega, by omega, by omega⟩,
        List.getElem?_append_left (by rw [htake]; exact hi),
        List.getElem?_take_of_lt hi, List.getElem?_eq_getElem him,
        List.getElem?_eq_getElem hiv]
      simp [List.getD_eq_getElem?_getD, List.getElem?_eq_getElem hiv]
    · rw [if_neg (by omega), List.getElem?_append_right (by rw [htake]; omega), htake,
        List.getElem?_drop]
      congr 1
      omega

theorem chain_stops_at_midpoint_witness :
    0 + [1, 2, 3, 4, 5].length ≤ UINT_RANGE ∧ 5 ≤ [0, 0, 0, 0, 0].length
    ∧ (writeChain (PacketBuffer.createReadWrite Ptr.region 0 5) [0, 0, 0, 0, 0]
        [1, 2, 3, 4, 5]).2 = [1, 2, 3, 0, 0]
    ∧ (readChain (PacketBuffer.createReadOnly Ptr.region 0 5) [0, 0, 0, 0, 0]
        [9, 9, 9, 9, 9]).2.length = 5 :=
  ⟨by decide, by decide,
    (chain_stops_at_midpoint [0, 0, 0, 0, 0] 0 5 [1, 2, 3, 4, 5] [9, 9, 9, 9, 9]
      (by decide) (by decide) (by decide)).2.2.2.2.2 rfl rfl rfl,
    (chain_stops_at_midpoint [0, 0, 0, 0, 0] 0 5 [1, 2, 3, 4, 5] [9, 9, 9, 9, 9]
      (by decide) (by decide) (by decide)).2.2.2.2.1⟩

/-! ## Bounds safety of the region accesses -/

theorem advance_inRegion (b : PacketBuffer) (count : Int) (len : Nat) (h : InRegion b len) :
    InRegion (b.advance count) len := by
  unfold InRegion at h ⊢
  simp only [PacketBuffer.advance]
  by_cases hc : b.m_size > toUnsigned count
  · right
    rw [if_pos hc]
    have hmod : (b.m_offset + toUnsigned count) % UINT_RANGE ≤ b.m_offset + toUnsigned count :=
      Nat.mod_le _ _
    omega
  · left
    rw [if_neg hc]

theorem copy_n_checked_eq (src : List Nat) : ∀ (count : Nat) (buf : List Nat) (dst : Nat),
    count = 0 ∨ dst + count ≤ buf.length →
    copy_n_checked src count buf dst = some (copy_n src count buf dst) := by
  induction src with
  | nil => intro count buf dst _; simp [copy_n_checked, copy_n]
  | cons x xs ih =>
    intro count buf dst h
    cases count with
    | zero => simp [copy_n_checked, copy_n]
    | succ c =>
      have hlt : dst < buf.length := by omega
      simp only [copy_n_checked, copy_n, if_pos hlt]
      exact ih c _ _ (by rw [List.length_set]; omega)

theorem apply_length (st : PacketBuffer × List Nat) (op : CursorOp) :
    (CursorOp.apply st op).2.length = st.2.length := by
  cases op with
  | readUInt8 value => rfl
  | writeUInt8 value =>
    simp only [CursorOp.apply, PacketBuffer.writeUInt8]
    split <;> simp
  | readStruct layout data => rfl
  | writeStruct layout data =>
    simp only [CursorOp.apply, PacketBuffer.writeStruct]
    split <;> simp [copy_n_length]

theorem apply_inRegion (st : PacketBuffer × List Nat) (op : CursorOp) (len : Nat)
    (h : InRegion st.1 len) : InRegion (CursorOp.apply st op).1 len := by
  cases op with
  | readUInt8 value => exact advance_inRegion st.1 1 len h
  | writeUInt8 value => exact advance_inRegion st.1 1 len h
  | readStruct layout data => exact advance_inRegion st.1 _ len h
  | writeStruct layout data => exact advance_inRegion st.1 _ len h

theorem applyChecked_eq (st : PacketBuffer × List Nat) (op : CursorOp)
    (h : InRegion st.1 st.2.length) :
    CursorOp.applyChecked st op = some (CursorOp.apply st op) := by
  unfold InRegion at h
  cases op with
  | readUInt8 value =>
    simp only [CursorOp.applyChecked, CursorOp.apply, PacketBuffer.readUInt8Checked,
      PacketBuffer.readUInt8]
    by_cases hg : (st.1.m_roBuffer.nonNull && decide (st.1.m_offset < st.1.m_size)) = true
    · have hlt : st.1.m_offset < st.1.m_size := by
        simp only [Bool.and_eq_true, decide_eq_true_eq] at hg; exact hg.2
      rw [if_pos hg, if_pos (by omega)]
      rfl
    · rw [if_neg hg]
      rfl
  | writeUInt8 value =>
    simp only [CursorOp.applyChecked, CursorOp.apply, PacketBuffer.writeUInt8Checked,
      PacketBuffer.writeUInt8]
    by_cases hg : (st.1.m_rwBuffer.nonNull && decide (st.1.m_offset < st.1.m_size)) = true
    · have hlt : st.1.m_offset < st.1.m_size := by
        simp only [Bool.and_eq_true, decide_eq_true_eq] at hg; exact hg.2
      rw [if_pos hg, if_pos hg, if_pos (by omega)]
    · rw [if_neg hg, if_neg hg]
  | readStruct layout data =>
    simp only [CursorOp.applyChecked, CursorOp.apply, PacketBuffer.readStructChecked,
      PacketBuffer.readStruct]
    by_cases hg : (st.1.m_roBuffer.nonNull
        && decide (st.1.m_offset + layout.sizeof ≤ st.1.m_size)) = true
    · have hle : st.1.m_offset + layout.sizeof ≤ st.1.m_size := by
        simp only [Bool.and_eq_true, decide_eq_true_eq] at hg; exact hg.2
      have hload : loadRange st.2 st.1.m_offset layout.sizeof
          = some ((st.2.drop st.1.m_offset).take layout.sizeof) := by
        unfold loadRange
        rw [if_pos (by omega)]
      rw [if_pos hg, hload]
      rfl
    · rw [if_neg hg]
      rfl
  | writeStruct layout data =>
    simp only [CursorOp.applyChecked, CursorOp.apply, PacketBuffer.writeStructChecked,
      PacketBuffer.writeStruct]
    by_cases hg : (st.1.m_rwBuffer.nonNull
        && decide (st.1.m_offset + layout.sizeof ≤ st.1.m_size)) = true
    · have hle : st.1.m_offset + layout.sizeof ≤ st.1.m_size := by
        simp only [Bool.and_eq_true, decide_eq_true_eq] at hg; exact hg.2
      rw [if_pos hg, if_pos hg, copy_n_checked_eq _ _ _ _ (by omega)]
      rfl
    · rw [if_neg hg, if_neg hg]

theorem runCursor_safe (ops : List CursorOp) : ∀ st : PacketBuffer × List Nat,
    InRegion st.1 st.2.length →
    runCursorChecked st ops = some (runCursor st ops)
    ∧ InRegion (runCursor st ops).1 st.2.length
    ∧ (runCursor st ops).2.length = st.2.length := by
  induction ops with
  | nil => intro st h; exact ⟨rfl, h, rfl⟩
  | cons op ops ih =>
    intro st h
    have hlen := apply_length st op
    have hinv : InRegion (CursorOp.apply st op).1 (CursorOp.apply st op).2.length := by
      rw [hlen]; exact apply_inRegion st op _ h
    obtain ⟨h1, h2, h3⟩ := ih (CursorOp.apply st op) hinv
    rw [hlen] at h2 h3
    refine ⟨?_, h2, h3⟩
    show (CursorOp.applyChecked st op).bind (fun st1 => runCursorChecked st1 ops) = _
    rw [applyChecked_eq st op h]
    exact h1

theorem writePayloadChecked_eq (p : ContiguousPacket) (buffer : PacketBuffer)
    (mem : List Nat) (payloadLength : Int) (h0 : 0 ≤ payloadLength)
    (hmax : payloadLength ≤ INT_MAX) (h : InRegion buffer mem.length) :
    p.writePayloadChecked buffer mem payloadLength
      = some (p.writePayload buffer mem payloadLength) := by
  unfold InRegion at h
  simp only [ContiguousPacket.writePayloadChecked, ContiguousPacket.writePayload]
  by_cases hg : (decide (buffer.size < toUnsigned payloadLength)
      || !buffer.m_roBuffer.nonNull) = true
  · rw [if_pos hg, if_pos hg]
  · rw [if_neg hg, if_neg hg, if_neg (by omega)]
    have hsz : ¬ buffer.m_size < toUnsigned payloadLength := by
      intro hlt
      apply hg
      simp [PacketBuffer.size, hlt]
    have hun : payloadLength.toNat ≤ toUnsigned payloadLength := by
      rw [toUnsigned_of_nonneg payloadLength h0 hmax]
    have hload : loadRange mem buffer.offset payloadLength.toNat
        = some ((mem.drop buffer.offset).take payloadLength.toNat) := by
      unfold loadRange
      rw [if_pos (by simp only [PacketBuffer.offset]; omega)]
    rw [hload]
    rfl

/-- Bounds safety of the chained cursor operations. For every region of `L` bytes, every
cursor over it with `offset + size <= L` and every chain of `readUInt8`/`writeUInt8`/
`readStruct`/`writeStruct` calls from it, no call of the chain accesses a byte outside the
region: the chain with checked accesses has a result, the one of the chain itself. The
derived cursor satisfies `size = 0 or offset + size <= L`, which `advance` preserves, the
region keeps its length, and a builder `writePayload` from the derived cursor with a
non-negative `int` length reads no byte outside the region. -/
theorem chain_access_in_bounds (c : PacketBuffer) (mem : List Nat) (ops : List CursorOp)
    (h : c.m_offset + c.m_size ≤ mem.length) :
    runCursorChecked (c, mem) ops = some (runCursor (c, mem) ops)
    ∧ InRegion (runCursor (c, mem) ops).1 mem.length
    ∧ (runCursor (c, mem) ops).2.length = mem.length
    ∧ (∀ (b : PacketBuffer) (count : Int), InRegion b mem.length →
        InRegion (b.advance count) mem.length)
    ∧ (∀ (p : ContiguousPacket) (payloadLength : Int),
        0 ≤ payloadLength → payloadLength ≤ INT_MAX →
        p.writePayloadChecked (runCursor (c, mem) ops).1 (runCursor (c, mem) ops).2
            payloadLength
          = some (p.writePayload (runCursor (c, mem) ops).1 (runCursor (c, mem) ops).2
            payloadLength)) := by
  obtain ⟨h1, h2, h3⟩ := runCursor_safe ops (c, mem) (Or.inr h)
  refine ⟨h1, h2, h3, ?_, ?_⟩
  · intro b count hb
    exact advance_inRegion b count _ hb
  · intro p payloadLength h0 hmax
    exact writePayloadChecked_eq p _ _ payloadLength h0 hmax (by rw [h3]; exact h2)

theorem chain_access_in_bounds_sample :
    (PacketBuffer.createReadWrite Ptr.region 1 24).m_offset
        + (PacketBuffer.createReadWrite Ptr.region 1 24).m_size ≤ (List.replicate 25 0).length
    ∧ runCursorChecked (PacketBuffer.createReadWrite Ptr.region 1 24, List.replicate 25 0)
        sampleChain
      = some (runCursor (PacketBuffer.createReadWrite Ptr.region 1 24, List.replicate 25 0)
        sampleChain) :=
  ⟨by decide,
    (chain_access_in_bounds (PacketBuffer.createReadWrite Ptr.region 1 24)
      (List.replicate 25 0) sampleChain (by decide)).1⟩

end PacketWrapper
